import Mathlib

/-!
Verification of the Notion sync core of GBF-StorySolver-CN.

Shallow embedding of `lib/notion/sync.py`, `lib/notion/database.py`,
`lib/notion/render.py` and `lib/notion/parsers.py`.  Python strings are
modelled as `List Char` (`Str`); the remote API client is modelled by an
explicit remote-state value plus a trace of the write calls a function
issues; dictionaries keyed by strings are modelled as association lists.
-/

/-- Python strings are modelled as lists of characters. -/
abbrev Str := List Char

/-- Convenience conversion from Lean string literals. -/
def str (s : String) : Str := s.data

/-- The default whitespace class of Python `str.strip` / `str.rstrip`
(ASCII whitespace; the repository's inputs contain no exotic Unicode
space characters). -/
def isPySpace (c : Char) : Bool :=
  c = ' ' || c = '\t' || c = '\n' || c = '\r' || c = '\x0b' || c = '\x0c'

/-- Python `str.lstrip()`. -/
def pyLstrip (s : Str) : Str := s.dropWhile isPySpace

/-- Python `str.rstrip()`. -/
def pyRstrip (s : Str) : Str := (s.reverse.dropWhile isPySpace).reverse

/-- Python `str.strip()`. -/
def pyStrip (s : Str) : Str := pyRstrip (pyLstrip s)

/-- Python `text.replace("\r\n", "\n")` (left-to-right, non-overlapping). -/
def replaceCRLF : Str → Str
  | [] => []
  | [c] => [c]
  | c :: d :: rest =>
    if c = '\r' ∧ d = '\n' then '\n' :: replaceCRLF rest
    else c :: replaceCRLF (d :: rest)

/-- Python `text.replace("\r", "\n")` (single-character pattern). -/
def replaceCR (s : Str) : Str := s.map (fun c => if c = '\r' then '\n' else c)

/-- Python `str.split(sep)` for a single-character separator, keeping
empty fields. -/
def splitOnChar (sep : Char) : Str → List Str
  | [] => [[]]
  | c :: rest =>
    if c = sep then [] :: splitOnChar sep rest
    else
      match splitOnChar sep rest with
      | t :: ts => (c :: t) :: ts
      | [] => [[c]]

/-- The blank-run filter loop of `normalize_text_for_diff`
(`lib/notion/sync.py:303-312`): a blank line is kept only while the
current run of blank lines has length at most 2; a non-blank line resets
the run counter. -/
def normLoop : List Str → Nat → List Str
  | [], _ => []
  | ln :: rest, blankRun =>
    if ln = [] then
      (if blankRun + 1 ≤ 2 then [([] : Str)] else []) ++ normLoop rest (blankRun + 1)
    else
      ln :: normLoop rest 0

/-- The `blank_run` value `normLoop` holds after processing a line list
from a given starting value (used to state how `normLoop` splits over
an append). -/
def normState : List Str → Nat → Nat
  | [], r => r
  | ln :: rest, r => normState rest (if ln = [] then r + 1 else 0)

/-- `normalize_text_for_diff` (`lib/notion/sync.py:297-315`): normalize
line endings, right-strip each line, cap runs of blank lines at 2, trim
trailing blank lines, and re-join with newlines. -/
def normalize_text_for_diff (text : Str) : Str :=
  if text = [] then []
  else
    let t := replaceCR (replaceCRLF text)
    let lines := (splitOnChar '\n' t).map pyRstrip
    let out := normLoop lines 0
    let out2 := (out.reverse.dropWhile (· = [])).reverse
    List.intercalate (str "\n") out2

/-- `sha1_text` (`lib/notion/sync.py:26-28`).  The SHA-1 digest itself is
modelled as an abstract deterministic digest function of the text (a
polynomial hash rendered in hex): every claim in scope depends only on
the digest being a function of the text, never on its internal
structure or collision behaviour. -/
def sha1_text (text : Str) : Str :=
  Nat.toDigits 16 (text.foldl (fun h c => (h * 131 + c.toNat) % (2 ^ 160)) 7)

/-- `[0-9a-f]`, the character class of the media-URL patterns. -/
def isHexLower (c : Char) : Bool :=
  (decide ('0' ≤ c) && decide (c ≤ '9')) || (decide ('a' ≤ c) && decide (c ≤ 'f'))

/-- Tail matcher `[0-9a-f]/[0-9a-f]{2}/([^/]+)$` of the first pattern of
`normalize_gbf_media_url`: the greedy `[^/]+` must reach the end of the
string, so the capture is the final, slash-free, nonempty segment. -/
def matchHexTail1 (cs : Str) : Option Str :=
  match cs with
  | h :: s1 :: h1 :: h2 :: s2 :: rest =>
    if isHexLower h && (s1 == '/') && isHexLower h1 && isHexLower h2 && (s2 == '/')
        && (!rest.isEmpty) && rest.all (fun c => !(c == '/')) then
      some rest
    else none
  | _ => none

/-- One start-position attempt of
`re.search(r"/images/(?:thumb/)?[0-9a-f]/[0-9a-f]{2}/([^/]+)$", url)`
(`lib/notion/parsers.py:17`).  The greedy optional `(?:thumb/)?` branch is
tried first, as the backtracking engine does. -/
def pat1At (cs : Str) : Option Str :=
  if (str "/images/").isPrefixOf cs then
    (if (str "thumb/").isPrefixOf (cs.drop 8) then matchHexTail1 ((cs.drop 8).drop 6)
     else none).or
      (matchHexTail1 (cs.drop 8))
  else none

/-- One start-position attempt of
`re.search(r"/images/thumb/[0-9a-f]/[0-9a-f]{2}/([^/]+)/", url)`
(`lib/notion/parsers.py:18`).  The greedy `[^/]+` takes the next whole
segment, which must be nonempty and followed by `/`.  (The leading
`/images/` test is implied by the `/images/thumb/` one; it is kept
explicit so both patterns share the same gate.) -/
def pat2At (cs : Str) : Option Str :=
  if (str "/images/").isPrefixOf cs then
    if (str "/images/thumb/").isPrefixOf cs then
      match cs.drop 14 with
      | h :: s1 :: h1 :: h2 :: s2 :: rest =>
        if isHexLower h && (s1 == '/') && isHexLower h1 && isHexLower h2 && (s2 == '/') then
          let seg := rest.takeWhile (fun c => !(c == '/'))
          if !seg.isEmpty && ((rest.drop seg.length).head? == some '/') then some seg
          else none
        else none
      | _ => none
    else none
  else none

/-- `re.search`: try the pattern at every start position, leftmost first
(the position after the last character included). -/
def reSearch (f : Str → Option Str) : Str → Option Str
  | [] => f []
  | l@(_ :: rest) =>
    match f l with
    | some r => some r
    | none => reSearch f rest

/-- The URL scheme-and-host gate of `normalize_gbf_media_url`. -/
def gbfWikiRoot : Str := str "https://gbf.wiki/"

/-- The stable-URL target of `normalize_gbf_media_url`. -/
def filePathRoot : Str := str "https://gbf.wiki/Special:FilePath/"

/-- `normalize_gbf_media_url` (`lib/notion/parsers.py:10-24`): rewrite a
gbf.wiki `/images/` (thumbnail) URL to the stable `Special:FilePath`
form; return every other URL unchanged. -/
def normalize_gbf_media_url (url : Str) : Str :=
  if url.isEmpty || !(gbfWikiRoot.isPrefixOf url) then url
  else
    match reSearch pat1At url with
    | some name => filePathRoot ++ name
    | none =>
      match reSearch pat2At url with
      | some name => filePathRoot ++ name
      | none => url

/-! ## Cache model (`SyncContext._cache`, a JSON dict of dicts) -/

/-- One cache section: a string-keyed dict modelled as an association
list (first binding of a key is the live one; `alSet` overwrites it). -/
abbrev SDict := List (Str × Str)

/-- Python `dict.get(key)`. -/
def alGet (m : SDict) (k : Str) : Option Str :=
  (m.find? (fun p => p.1 == k)).map (·.2)

/-- Python `dict[key] = value`. -/
def alSet (m : SDict) (k v : Str) : SDict :=
  match m with
  | [] => [(k, v)]
  | (k0, v0) :: rest => if k0 == k then (k0, v) :: rest else (k0, v0) :: alSet rest k v

/-- The two-level cache dict `{section → {key → value}}`. -/
abbrev Cache := List (Str × SDict)

/-- `SyncContext._get_cached` (`lib/notion/sync.py:80-81`):
`self._cache.get(section, {}).get(key)`. -/
def _get_cached (c : Cache) (sec key : Str) : Option Str :=
  match c.find? (fun p => p.1 == sec) with
  | some p => alGet p.2 key
  | none => none

/-- `SyncContext._set_cached` (`lib/notion/sync.py:83-84`):
`self._cache.setdefault(section, {})[key] = value`. -/
def _set_cached (c : Cache) (sec key value : Str) : Cache :=
  match c with
  | [] => [(sec, [(key, value)])]
  | (s0, m0) :: rest =>
    if s0 == sec then (s0, alSet m0 key value) :: rest
    else (s0, m0) :: _set_cached rest sec key value

/-! ## Persistence model (`load_state` / `save_state`) -/

/-- `json.dumps(state, ...)` modelled as an abstract but concrete
serialization function of the cache state; no claim in scope depends on
the JSON syntax itself, only on the content being a function of the
state. -/
def jsonDumps (state : Cache) : Str :=
  (state.map (fun sec =>
    sec.1 ++ str ": " ++ (sec.2.map (fun kv => kv.1 ++ str "=" ++ kv.2 ++ str "; ")).flatten ++ str "\n")).flatten

/-- File-level model of `Path.write_text`: opening with mode "w"
truncates the file, then the payload is written front to back.
`fault = none` is a successful write; `fault = some k` models an
exception raised after `k` characters reached the disk (the file is left
holding the partial payload). -/
def write_text (new : Str) (fault : Option Nat) (_old : Option Str) : Option Str :=
  match fault with
  | none => some new
  | some k => some (new.take k)

/-- `save_state` (`lib/notion/sync.py:42-49`): serialize the state and
overwrite the cache file in place; any exception is swallowed by the
bare `except`, so the function always returns normally.  The result is
the cache file's content after the call. -/
def save_state (fileContent : Option Str) (state : Cache) (fault : Option Nat) : Option Str :=
  write_text (jsonDumps state) fault fileContent

/-! ## Rendered block model

`render_story_blocks` / `render_profile_blocks` produce dicts of the
fixed shape `{object: "block", type: t, t: {rich_text: [...]}}` with
rich-text items `{type: "text", text: {content}, annotations: {...}}`;
these are the blocks the sync functions receive. -/

/-- Block kind: `heading_<level>` or `paragraph`. -/
inductive BType
  | heading (level : Nat)
  | paragraph
deriving DecidableEq

/-- One rich-text item as built by `_rt` (`lib/notion/render.py:10-23`). -/
structure RichText where
  content : Str
  bold : Bool := false
  italic : Bool := false
  color : Str := str "default"
deriving DecidableEq

/-- One rendered block. -/
structure Block where
  btype : BType
  rich : List RichText
deriving DecidableEq

/-- The `type` field string of a rendered block dict. -/
def btypeName : BType → Str
  | .heading l => str "heading_" ++ Nat.toDigits 10 l
  | .paragraph => str "paragraph"

/-- `_collect_text_nodes` (`lib/notion/sync.py:318-344`) applied to one
rendered block dict: the traversal visits the dict in insertion order,
returning the strings `"block"` (value of `object`), the `type` string,
then the `content` of each rich-text item (an item carrying a `text`
sub-dict returns only its content; annotations are not visited). -/
def collectBlockText (b : Block) : Str :=
  str "block" ++ btypeName b.btype ++ (b.rich.map (·.content)).flatten

/-- `blocks_plain_text` (`lib/notion/sync.py:347-353`): collected text of
each block followed by a newline. -/
def blocks_plain_text (blocks : List Block) : Str :=
  (blocks.map (fun b => collectBlockText b ++ str "\n")).flatten

/-! ## Remote store model

A remote child block is listed with its `type` and (for `child_page` /
`child_database`) its title; for a `child_database` the model also
carries the id of its single data source (what `databases.retrieve`
reports in `data_sources[0].id`).  Cursor-paginated listings are
modelled as the list of result pages: the call at cursor `i` returns
page `i`, with `has_more` true exactly when page `i+1` exists. -/

structure RChild where
  id : Str
  ctype : Str
  title : Str := []
  dsId : Str := []
deriving DecidableEq

/-- A row of a data source, reduced to what `_build_title_index` reads:
its id and the plain text of its title property. -/
structure DsRow where
  id : Str
  title : Str
deriving DecidableEq

/-- Properties payload of a dataset row mutation, reduced to observable
content: the title-property text and the remaining
property-name/value pairs in insertion order. -/
structure RowProps where
  title : Str
  fields : List (Str × Str)
deriving DecidableEq

/-- One remote write call. -/
inductive WOp
  | deleteBlock (id : Str)
  | appendChildren (pageId : Str) (children : List Block)
  | createPage (parentId : Str) (title : Str)
  | createDatabase (parentId : Str) (title : Str)
  | createRow (dsId : Str) (props : RowProps)
  | updateRow (rowId : Str) (props : RowProps)
deriving DecidableEq

/-- The per-block match of `get_child_block_by_title`
(`lib/notion/sync.py:159-163`): a `child_page` or `child_database`
whose title equals the request. -/
def isTitleMatch (title : Str) (b : RChild) : Bool :=
  (b.ctype == str "child_page" && b.title == title)
    || (b.ctype == str "child_database" && b.title == title)

/-- `get_child_block_by_title` (`lib/notion/sync.py:154-166`): scan the
cursor pages of the parent's child listing in order; return the first
matching child, or `None` once a page reports `has_more` false (i.e.
after the last page). -/
def get_child_block_by_title (pages : List (List RChild)) (title : Str) : Option RChild :=
  match pages with
  | [] => none
  | page :: restPages =>
    match page.find? (isTitleMatch title) with
    | some b => some b
    | none => if restPages.isEmpty then none else get_child_block_by_title restPages title

/-- `clear_page_blocks` (`lib/notion/sync.py:181-195`): delete every
listed child that is not a `child_page` or `child_database`, page by
page (delete failures are swallowed; the call trace is the same). -/
def clear_page_blocks (childPages : List (List RChild)) : List WOp :=
  (childPages.flatten.filter
    (fun c => !(c.ctype == str "child_page" || c.ctype == str "child_database"))).map
    (fun c => WOp.deleteBlock c.id)

/-- Chunking loop of `append_blocks`: `children[i:i+size]` for
`i = 0, size, 2*size, ...` (fuel-driven; `fuel ≥ children.length` and
`size ≥ 1` make the fuel sufficient). -/
def chunksGo (size : Nat) : Nat → List Block → List (List Block)
  | _, [] => []
  | 0, _ => []
  | fuel + 1, l => l.take size :: chunksGo size fuel (l.drop size)

/-- `append_blocks` (`lib/notion/sync.py:198-203`): nothing to do on an
empty list, otherwise sequential append calls of at most 80 blocks. -/
def append_blocks (pageId : Str) (children : List Block) : List WOp :=
  (chunksGo 80 children.length children).map (WOp.appendChildren pageId)

/-! ## SyncContext -/

/-- The `SyncContext` fields the sync paths read and write (the client
itself is replaced by explicit remote-state arguments and write
traces). -/
structure SyncContext where
  mode : Str
  dry_run : Bool
  cache : Cache
deriving DecidableEq

/-- `SyncContext.sync_page_blocks` (`lib/notion/sync.py:96-126`).
`childPages` is the paginated child listing of `pageId` that
`clear_page_blocks` would walk.  Returns the `True`/`False` result, the
context after the call, and the trace of remote write calls issued. -/
def sync_page_blocks (ctx : SyncContext) (pageId : Str) (childPages : List (List RChild))
    (blocks : List Block) (cacheKey : Str)
    (blockTextFn : List Block → Str := blocks_plain_text) (skipClear : Bool := false) :
    Bool × SyncContext × List WOp :=
  let desiredText := normalize_text_for_diff (blockTextFn blocks)
  let desiredHash := sha1_text desiredText
  if ctx.mode ≠ str "force" ∧ _get_cached ctx.cache (str "hashes") cacheKey = some desiredHash then
    (false, ctx, [])
  else if ctx.dry_run then
    (false, ctx, [])
  else
    let clearOps := if skipClear then [] else clear_page_blocks childPages
    let appendOps := append_blocks pageId blocks
    (true, { ctx with cache := _set_cached ctx.cache (str "hashes") cacheKey desiredHash },
      clearOps ++ appendOps)

/-! ## Database sync (`lib/notion/database.py`)

`query_data_source` joins all cursor pages of the data source into one
row list, so the remote dataset is modelled directly as that list.
Freshly created remote ids are modelled as strings tagged by the
creating call. -/

/-- Remote state a database sync reads: the parent page's paginated
child listing (walked by `get_child_block_by_title`) and the rows of
the matching data source (what `query_data_source` returns). -/
structure DbRemote where
  parentChildren : List (List RChild)
  dsRows : List DsRow
deriving DecidableEq

/-- `get_or_create_database` (`lib/notion/sync.py:243-260`): reuse an
existing `child_database` with the requested title, otherwise create
one (`create_database_with_schema`); returns the database id, the data
source id and the write trace. -/
def get_or_create_database (parentChildren : List (List RChild)) (parentId title : Str) :
    Str × Str × List WOp :=
  match get_child_block_by_title parentChildren title with
  | some b =>
    if b.ctype == str "child_database" then (b.id, b.dsId, [])
    else (str "db:" ++ title, str "ds:" ++ title, [WOp.createDatabase parentId title])
  | none => (str "db:" ++ title, str "ds:" ++ title, [WOp.createDatabase parentId title])

/-- `_build_title_index` (`lib/notion/database.py:39-48`): map each row's
nonempty title text to its row id (later rows overwrite earlier ones). -/
def _build_title_index (rows : List DsRow) : SDict :=
  rows.foldl (fun index row => if row.title = [] then index else alSet index row.title row.id) []

/-- A local cast record `{name, image_url, wiki_url?}`. -/
structure CastRec where
  name : Str
  image_url : Str
  wiki_url : Option Str := none
deriving DecidableEq

/-- The row properties `sync_cast_database` builds for one record
(`lib/notion/database.py:93-98`). -/
def castProps (r : CastRec) : RowProps :=
  { title := r.name,
    fields := [(str "Portrait", normalize_gbf_media_url r.image_url)]
      ++ (match r.wiki_url with | some w => [(str "WikiUrl", w)] | none => []) }

/-- Loop body of `sync_cast_database` for one record
(`lib/notion/database.py:82-110`): skip records missing a name or image
URL; create when the name is absent from the index; update only under
`force` when it is present. -/
def castRecOps (dsId : Str) (index : SDict) (mode : Str) (r : CastRec) : List WOp :=
  if r.name = [] ∨ r.image_url = [] then []
  else
    match alGet index r.name with
    | some rowId => if mode ≠ str "force" then [] else [WOp.updateRow rowId (castProps r)]
    | none => [WOp.createRow dsId (castProps r)]

/-- `sync_cast_database` (`lib/notion/database.py:51-112`): returns the
database id and the trace of remote write calls. -/
def sync_cast_database (remote : DbRemote) (parentId : Str) (rows : List CastRec)
    (mode : Str) (dry_run : Bool) : Str × List WOp :=
  let r := get_or_create_database remote.parentChildren parentId (str "Cast Portraits")
  if dry_run then (r.1, r.2.2)
  else
    let index := _build_title_index remote.dsRows
    (r.1, r.2.2 ++ (rows.map (castRecOps r.2.1 index mode)).flatten)

/-- A local voice item `{Label?, Japanese?, Chinese?, English?, Audio?}`
(absent keys modelled as `none`; `dict.get` of an absent key yields the
default). -/
structure VoiceItem where
  label : Option Str := none
  japanese : Option Str := none
  chinese : Option Str := none
  english : Option Str := none
  audio : Option Str := none
deriving DecidableEq

/-- `item.get("Label", "Unknown")` (`lib/notion/database.py:149`). -/
def voiceLabelOf (it : VoiceItem) : Str := it.label.getD (str "Unknown")

/-- `if item.get(k): properties[k] = ...`: a rich-text property is added
only for a present, nonempty value. -/
def optField (name : String) (v : Option Str) : List (Str × Str) :=
  match v with
  | some s => if s = [] then [] else [(str name, s)]
  | none => []

/-- `audio_url` of one voice item (`lib/notion/database.py:153-155`):
a present, nonempty Audio value is normalized. -/
def voiceAudioUrl (it : VoiceItem) : Str :=
  match it.audio with
  | some a => if a = [] then a else normalize_gbf_media_url a
  | none => []

/-- The row properties `sync_voice_database` builds for one item
(`lib/notion/database.py:157-169`). -/
def voicePropsOf (it : VoiceItem) : RowProps :=
  { title := voiceLabelOf it,
    fields := optField "Japanese" it.japanese ++ optField "Chinese" it.chinese
      ++ optField "English" it.english
      ++ (if voiceAudioUrl it = [] then [] else [(str "Audio", voiceAudioUrl it)]) }

/-- Loop body of `sync_voice_database` for one item
(`lib/notion/database.py:148-181`): skip empty labels, then
create/update/skip by index membership and mode. -/
def voiceItemOps (dsId : Str) (index : SDict) (mode : Str) (it : VoiceItem) : List WOp :=
  let label := voiceLabelOf it
  if label = [] then []
  else
    match alGet index label with
    | some rowId => if mode ≠ str "force" then [] else [WOp.updateRow rowId (voicePropsOf it)]
    | none => [WOp.createRow dsId (voicePropsOf it)]

/-- `sync_voice_database` (`lib/notion/database.py:115-183`): returns the
database id and the trace of remote write calls. -/
def sync_voice_database (remote : DbRemote) (parentId title : Str) (voiceData : List VoiceItem)
    (mode : Str) (dry_run : Bool) : Str × List WOp :=
  let dbTitle := title ++ str " - Voice Lines"
  let r := get_or_create_database remote.parentChildren parentId dbTitle
  if dry_run then (r.1, r.2.2)
  else
    let index := _build_title_index remote.dsRows
    (r.1, r.2.2 ++ (voiceData.map (voiceItemOps r.2.1 index mode)).flatten)

/-! ## Content renderer (`lib/notion/render.py`) -/

/-- The line-terminator characters of Python `str.splitlines`:
`\n`, `\r`, `\v` (`\x0b`), `\f` (`\x0c`), `\x1c`, `\x1d`, `\x1e`,
`\x85`, U+2028 and U+2029; a `\r\n` pair counts as one break. -/
def isLineBreak (c : Char) : Bool :=
  c = '\n' || c = '\r' || c = '\x0b' || c = '\x0c' || c = '\x1c' || c = '\x1d'
    || c = '\x1e' || c = '\x85' || c = '\u2028' || c = '\u2029'

/-- Python `str.splitlines()`: merge each `\r\n` pair into a single
break, turn every remaining line terminator into `\n`, split on `\n`,
and drop the trailing empty line produced when the text ends in a
terminator. -/
def pySplitlines (cs : Str) : List Str :=
  let u := (replaceCRLF cs).map (fun c => if isLineBreak c then '\n' else c)
  if u = [] then []
  else if u.getLast? = some '\n' then (splitOnChar '\n' u).dropLast
  else splitOnChar '\n' u

/-- `s.rfind(" ", 0, hi)` on a window already cut to `hi` characters:
the highest index of a space, if any. -/
def rfindSpaceAux : Str → Nat → Option Nat → Option Nat
  | [], _, acc => acc
  | c :: rest, i, acc => rfindSpaceAux rest (i + 1) (if c = ' ' then some i else acc)

/-- Highest index of a space character in the window. -/
def rfindSpace (w : Str) : Option Nat := rfindSpaceAux w 0 none

/-- Loop of `_split_text` (`lib/notion/render.py:32-39`), fuel-driven:
while the text exceeds `maxLen`, cut at the last space in the
`maxLen`-window unless that space sits at an index below 200 (Python's
`rfind` returns -1 when no space exists, and `-1 < 200` also forces the
hard cut at `maxLen`); both sides of the cut are stripped.  `fuel`
larger than the text length is always sufficient, since every
iteration removes at least 200 characters. -/
def splitTextGo (maxLen : Nat) : Nat → Str → List Str
  | 0, _ => []
  | fuel + 1, s =>
    if s.length > maxLen then
      let cutI : Int := match rfindSpace (s.take maxLen) with
        | some i => (i : Int)
        | none => -1
      let cut : Nat := if cutI < 200 then maxLen else cutI.toNat
      pyStrip (s.take cut) :: splitTextGo maxLen fuel (pyStrip (s.drop cut))
    else if s = [] then [] else [s]

/-- `_split_text` (`lib/notion/render.py:26-40`). -/
def _split_text (s : Str) (maxLen : Nat := 1800) : List Str :=
  let s2 := pyStrip s
  splitTextGo maxLen (s2.length + 1) s2

/-- Substring containment, Python's `needle in haystack`. -/
def containsSub (needle : Str) : Str → Bool
  | [] => needle.isEmpty
  | l@(_ :: rest) => needle.isPrefixOf l || containsSub needle rest

/-- Python `str.lower()` (ASCII case folding; header vocabularies are
ASCII). -/
def pyLower (s : Str) : Str := s.map Char.toLower

/-- The per-table column map: position of each recognized column. -/
structure ColMap where
  label : Option Nat := none
  japanese : Option Nat := none
  chinese : Option Nat := none
  english : Option Nat := none
  audio : Option Nat := none
deriving DecidableEq

/-- Number of recognized columns (`len(temp_col_map)`). -/
def colMapSize (m : ColMap) : Nat :=
  (if m.label.isSome then 1 else 0) + (if m.japanese.isSome then 1 else 0)
    + (if m.chinese.isSome then 1 else 0) + (if m.english.isSome then 1 else 0)
    + (if m.audio.isSome then 1 else 0)

/-- One header-vocabulary cell test (`lib/notion/parsers.py:117-133`):
each matching cell records its position and marks the row as a header
row. -/
def detectHeaderCell (acc : ColMap × Bool) (ic : Nat × Str) : ColMap × Bool :=
  let i := ic.1
  let cl := pyLower ic.2
  if cl == str "label" || (!cl.isEmpty && containsSub (str "label") cl && decide (cl.length < 15)) then
    ({ acc.1 with label := some i }, true)
  else if containsSub (str "japanese") cl || cl == str "jp" then
    ({ acc.1 with japanese := some i }, true)
  else if containsSub (str "chinese") cl || cl == str "cn" then
    ({ acc.1 with chinese := some i }, true)
  else if containsSub (str "english") cl || cl == str "en" then
    ({ acc.1 with english := some i }, true)
  else if containsSub (str "audio") cl then
    ({ acc.1 with audio := some i }, true)
  else acc

/-- Header detection over all cells of a row. -/
def detectHeader (cells : List Str) : ColMap × Bool :=
  cells.enum.foldl detectHeaderCell ({}, false)

/-- Cell extraction of a table line (`lib/notion/parsers.py:103-109`):
split on `|`, drop a blank first and last cell, strip the rest. -/
def rowCells (line : Str) : List Str :=
  let cells := splitOnChar '|' line
  let cells := match cells with
    | c :: rest => if pyStrip c = [] then rest else cells
    | [] => []
  let cells := match cells.getLast? with
    | some c => if pyStrip c = [] then cells.dropLast else cells
    | none => cells
  cells.map pyStrip

/-- URL-in-parentheses tail of the audio regex: `(https?://[^\s)]+)\)`
starting right after `](`. -/
def parseUrlParen (cs : Str) : Option Str :=
  let scheme : Option (Str × Str) :=
    if (str "https://").isPrefixOf cs then some (str "https://", cs.drop 8)
    else if (str "http://").isPrefixOf cs then some (str "http://", cs.drop 7)
    else none
  match scheme with
  | some (sch, rest) =>
    let run := rest.takeWhile (fun c => !(isPySpace c || c == ')'))
    if run = [] then none
    else if (rest.drop run.length).head? == some ')' then some (sch ++ run) else none
  | none => none

/-- Backtracking scan of the non-greedy `.*?\]\(…\)` region of the audio
regex: find the earliest `](` whose parenthesized URL parses; `.` never
crosses a newline. -/
def goAudio : Str → Option Str
  | [] => none
  | c :: rest =>
    if c = '\n' then none
    else if c = ']' then
      match rest with
      | '(' :: rest2 =>
        match parseUrlParen rest2 with
        | some u => some u
        | none => goAudio rest
      | _ => goAudio rest
    else goAudio rest

/-- `re.search(r"\[.*?\]\((https?://[^\s)]+)\)", value)`
(`lib/notion/parsers.py:151`): leftmost start, then shortest `.*?`. -/
def reSearchAudio : Str → Option Str
  | [] => none
  | c :: rest =>
    if c = '[' then
      match goAudio rest with
      | some u => some u
      | none => reSearchAudio rest
    else reSearchAudio rest

/-- The `Audio` cell transform (`lib/notion/parsers.py:150-155`): a
markdown link yields its URL; otherwise a value not starting with
`http` is discarded. -/
def audioTransform (value : Str) : Str :=
  match reSearchAudio value with
  | some u => u
  | none => if (str "http").isPrefixOf value then value else []

/-- `row[key] = cells[idx]` for a mapped column, keeping only truthy
values (`lib/notion/parsers.py:147-157`). -/
def rowField (cells : List Str) (idx : Option Nat) : Option Str :=
  match idx with
  | some i =>
    match cells.get? i with
    | some v => if v = [] then none else some v
    | none => none
  | none => none

/-- Same as `rowField` for the `Audio` column, with the link transform
applied before the truthiness check. -/
def rowFieldAudio (cells : List Str) (idx : Option Nat) : Option Str :=
  match idx with
  | some i =>
    match cells.get? i with
    | some v =>
      let v2 := audioTransform v
      if v2 = [] then none else some v2
    | none => none
  | none => none

/-- A parsed data row before label resolution. -/
def parseDataRow (m : ColMap) (cells : List Str) : VoiceItem :=
  { label := rowField cells m.label
    japanese := rowField cells m.japanese
    chinese := rowField cells m.chinese
    english := rowField cells m.english
    audio := rowFieldAudio cells m.audio }

/-- `label_counter.get(key, 0)`. -/
def cntGet (m : List (Str × Nat)) (k : Str) : Nat :=
  (((m.find? (fun p => p.1 == k))).map (·.2)).getD 0

/-- `label_counter[key] = n`. -/
def cntSet (m : List (Str × Nat)) (k : Str) (n : Nat) : List (Str × Nat) :=
  match m with
  | [] => [(k, n)]
  | (k0, n0) :: rest => if k0 == k then (k0, n) :: rest else (k0, n0) :: cntSet rest k n

/-- The mutable parser state threaded across lines
(`lib/notion/parsers.py:85-88`). -/
structure VoiceParseSt where
  header_found : Bool := false
  col_map : ColMap := {}
  last_label : Str := []
  label_counter : List (Str × Nat) := []
deriving DecidableEq

/-- Label resolution for a content-bearing row
(`lib/notion/parsers.py:160-173`): an explicit label resets the counter
to 1; a blank label inherits `last_label` with a `" #<n>"` suffix after
incrementing the counter; with no previous label the label is generated
from the row's primary text (30 characters, falling back to "Voice"). -/
def resolveLabel (st : VoiceParseSt) (row : VoiceItem) : VoiceParseSt × VoiceItem :=
  match row.label with
  | some lbl =>
    ({ st with last_label := lbl, label_counter := cntSet st.label_counter lbl 1 }, row)
  | none =>
    if st.last_label ≠ [] then
      let n := cntGet st.label_counter st.last_label + 1
      ({ st with label_counter := cntSet st.label_counter st.last_label n },
        { row with label := some (st.last_label ++ str " #" ++ Nat.toDigits 10 n) })
    else
      let primary := match row.japanese with
        | some j => j
        | none => row.chinese.getD []
      let gen := primary.take 30
      (st, { row with label := some (if gen = [] then str "Voice" else gen) })

/-- One line of the `parse_voice_table` loop
(`lib/notion/parsers.py:90-173`), returning the new state and the rows
emitted by this line. -/
def voiceLine (st : VoiceParseSt) (raw : Str) : VoiceParseSt × List VoiceItem :=
  let line := pyStrip raw
  if ¬ ((str "|").isPrefixOf line = true) then
    (if line ≠ [] ∧ ¬ ((str "#").isPrefixOf line = true) then { st with header_found := false }
     else st, [])
  else if containsSub (str "---") line then ({ st with header_found := true }, [])
  else
    let cells := rowCells line
    if cells = [] then (st, [])
    else
      let det := detectHeader cells
      if det.2 ∧ 2 ≤ colMapSize det.1 then
        ({ st with col_map := det.1, header_found := false }, [])
      else if ¬ st.header_found then (st, [])
      else
        let row := parseDataRow st.col_map cells
        if row.japanese.isSome ∨ row.chinese.isSome ∨ row.audio.isSome then
          let r := resolveLabel st row
          (r.1, [r.2])
        else (st, [])

/-- Fold of `voiceLine` over the lines. -/
def voiceLinesGo : List Str → VoiceParseSt → List VoiceItem
  | [], _ => []
  | l :: rest, st =>
    let r := voiceLine st l
    r.2 ++ voiceLinesGo rest r.1

/-- `parse_voice_table` (`lib/notion/parsers.py:73-175`). -/
def parse_voice_table (content : Str) : List VoiceItem :=
  voiceLinesGo (pySplitlines content) {}

/-- The labels of the parsed rows. -/
def voiceLabels (items : List VoiceItem) : List Str :=
  items.map (fun it => it.label.getD [])

/-! ## Concrete instances used by witnesses and counterexamples -/

/-- The voice table of the label-inheritance example: an explicit
`Smile` row followed by two blank-label rows. -/
def voiceTableSmile : Str :=
  str "| Label | Japanese |\n| --- | --- |\n| Smile | a |\n| | b |\n| | c |"

/-- A 5000-character paragraph whose only space sits at index 2000, so
no space occurs in its final 1800 characters. -/
def longParaOneSpace : Str :=
  List.replicate 2000 'a' ++ ' ' :: List.replicate 2999 'a'

/-- A remote parent with one (empty) listing page and no data rows: no
database exists yet. -/
def remoteNoDb : DbRemote := { parentChildren := [[]], dsRows := [] }

/-- A remote parent that already holds the `Cast Portraits` database,
whose data source has a single row titled `A`. -/
def castDbChild : RChild :=
  { id := str "db1", ctype := str "child_database", title := str "Cast Portraits", dsId := str "ds1" }

/-- See `castDbChild`: the parent already lists the cast database. -/
def remoteWithCastDb : DbRemote :=
  { parentChildren := [[castDbChild]], dsRows := [{ id := str "r1", title := str "A" }] }

/-- A filler child page (title `X`) for the pagination example. -/
def fillerChild : RChild := { id := str "b", ctype := str "child_page", title := str "X" }

/-- The target child page (title `Target`) for the pagination example. -/
def targetChild : RChild := { id := str "t", ctype := str "child_page", title := str "Target" }

/-- A 3-page, 250-item child listing whose only `Target` entry is the
last item of page 3. -/
def pagesWithTargetOnPage3 : List (List RChild) :=
  [List.replicate 100 fillerChild, List.replicate 100 fillerChild,
    List.replicate 49 fillerChild ++ [targetChild]]

/-! # Theorems -/

/-! ## Shared helper lemmas -/

theorem alGet_alSet_self (m : SDict) (k v : Str) : alGet (alSet m k v) k = some v := by
  induction m with
  | nil => simp [alGet, alSet, List.find?_cons_of_pos]
  | cons p rest ih =>
    obtain ⟨k0, v0⟩ := p
    by_cases h : (k0 == k) = true
    · simp [alSet, h, alGet, List.find?_cons_of_pos]
    · simp only [alSet, if_neg h]
      simpa [alGet, List.find?_cons_of_neg, h] using ih

theorem get_set_cached_self (c : Cache) (sec k v : Str) :
    _get_cached (_set_cached c sec k v) sec k = some v := by
  induction c with
  | nil => simp [_set_cached, _get_cached, List.find?_cons_of_pos, alGet]
  | cons p rest ih =>
    obtain ⟨s0, m0⟩ := p
    by_cases h : (s0 == sec) = true
    · simp [_set_cached, h, _get_cached, List.find?_cons_of_pos, alGet_alSet_self]
    · simp only [_set_cached, if_neg h]
      simpa [_get_cached, List.find?_cons_of_neg, h] using ih

theorem get_or_create_database_ops (pc : List (List RChild)) (pid t : Str) :
    (get_or_create_database pc pid t).2.2 = [] ∨
    (get_or_create_database pc pid t).2.2 = [WOp.createDatabase pid t] := by
  unfold get_or_create_database
  cases get_child_block_by_title pc t with
  | none => right; rfl
  | some b =>
    by_cases h : (b.ctype == str "child_database") = true
    · left; simp [h]
    · right; simp [h]

/-! ## C4 — cache persistence -/

/-- C4, counterexample: `save_state` is not atomic at the file level.
With prior file content `"OLD"`, a write that fails after 0 characters
(truncate-then-write semantics of `Path.write_text`) leaves the file
empty, not holding the previously persisted content, and the swallowed
exception hides the loss. -/
theorem C4_counterexample :
    save_state (some (str "OLD")) [(str "hashes", [(str "k", str "v")])] (some 0) = some [] ∧
    some ([] : Str) ≠ some (str "OLD") :=
  ⟨rfl, by decide⟩

/-- C4 as amended: `SyncContext.save` (`save_state`) overwrites the
cache file in place with the serialized state — it is not atomic, a
partial write can truncate the file — and repeating a successful save
with the same in-memory state has no further effect. -/
theorem C4_save_overwrite_idempotent (old : Option Str) (state : Cache) :
    save_state old state none = some (jsonDumps state) ∧
    save_state (save_state old state none) state none = save_state old state none :=
  ⟨rfl, rfl⟩

/-! ## C5 — voice label inheritance -/

/-- C5, counterexample: on the table with rows
`[{label "Smile", japanese "a"}, {japanese "b"}, {japanese "c"}]` the
parser emits labels `["Smile", "Smile #2", "Smile #3"]`, not
`["Smile", "Smile #1", "Smile #2"]`: the counter is set to 1 by the
labeled row itself, so the first blank-label row already gets `#2`. -/
theorem C5_counterexample :
    voiceLabels (parse_voice_table voiceTableSmile)
        = [str "Smile", str "Smile #2", str "Smile #3"] ∧
    [str "Smile", str "Smile #2", str "Smile #3"]
        ≠ [str "Smile", str "Smile #1", str "Smile #2"] := by
  decide

/-- C5 as amended: a blank-label row inherits the last seen label with
an appended `" #<n>"` where the counter counts all rows under that
label including the labeled one (so the blank rows get `#2`, `#3`, …),
and the labels produced for this table are collision-free. -/
theorem C5_label_inheritance :
    voiceLabels (parse_voice_table voiceTableSmile)
        = [str "Smile", str "Smile #2", str "Smile #3"] ∧
    (voiceLabels (parse_voice_table voiceTableSmile)).Nodup := by
  decide

/-! ## C9 — pagination of `get_child_block_by_title` -/

/-- C9: `get_child_block_by_title` equals a search over the
concatenation of all cursor pages — so it returns `None` only after
exhausting every page, and returns a matching child whenever one
exists on any page; in particular it finds a title whose only
occurrence is the last item of page 3 of a 3-page, 250-item listing. -/
theorem C9_find_child_exhausts_pages :
    (∀ (pages : List (List RChild)) (title : Str),
        get_child_block_by_title pages title = pages.flatten.find? (isTitleMatch title)) ∧
    get_child_block_by_title pagesWithTargetOnPage3 (str "Target") = some targetChild := by
  constructor
  · intro pages title
    induction pages with
    | nil => rfl
    | cons page rest ih =>
      simp only [get_child_block_by_title, List.flatten_cons, List.find?_append]
      cases hf : page.find? (isTitleMatch title) with
      | some b => rfl
      | none =>
        cases rest with
        | nil => rfl
        | cons p2 r2 => simpa [Option.or] using ih
  · decide

/-! ## C1 — diff-mode idempotence of `sync_page_blocks` -/

theorem sync_page_blocks_cached (ctx : SyncContext) (pageId : Str)
    (cp : List (List RChild)) (blocks : List Block) (key : Str)
    (fn : List Block → Str) (skip : Bool)
    (h : ctx.mode ≠ str "force" ∧ _get_cached ctx.cache (str "hashes") key
      = some (sha1_text (normalize_text_for_diff (fn blocks)))) :
    sync_page_blocks ctx pageId cp blocks key fn skip = (false, ctx, []) := by
  simp only [sync_page_blocks]
  rw [if_pos h]

theorem sync_page_blocks_write (ctx : SyncContext) (pageId : Str)
    (cp : List (List RChild)) (blocks : List Block) (key : Str)
    (fn : List Block → Str) (skip : Bool)
    (h : ¬(ctx.mode ≠ str "force" ∧ _get_cached ctx.cache (str "hashes") key
      = some (sha1_text (normalize_text_for_diff (fn blocks)))))
    (hdry : ctx.dry_run = false) :
    sync_page_blocks ctx pageId cp blocks key fn skip
      = (true,
          { ctx with cache := _set_cached ctx.cache (str "hashes") key (sha1_text (normalize_text_for_diff (fn blocks))) },
          (if skip then [] else clear_page_blocks cp) ++ append_blocks pageId blocks) := by
  simp only [sync_page_blocks]
  rw [if_neg h, hdry]
  simp

theorem sync_page_blocks_dry (ctx : SyncContext) (pageId : Str)
    (cp : List (List RChild)) (blocks : List Block) (key : Str)
    (fn : List Block → Str) (skip : Bool) (hdry : ctx.dry_run = true) :
    sync_page_blocks ctx pageId cp blocks key fn skip = (false, ctx, []) := by
  simp only [sync_page_blocks]
  rw [hdry]
  simp

/-- C1: with `mode = "diff"` and `dry_run` false, a second
`sync_page_blocks` call with the same blocks and cache key returns
`False` and issues zero remote write calls (no clear/delete, no
append): the hash stored by the first call matches the recomputed
hash.  The remote child listings the two calls would see may differ
arbitrarily. -/
theorem C1_second_diff_sync_is_noop (ctx : SyncContext) (pageId : Str)
    (cp1 cp2 : List (List RChild)) (blocks : List Block) (key : Str)
    (fn : List Block → Str) (skip1 skip2 : Bool)
    (hmode : ctx.mode = str "diff") (hdry : ctx.dry_run = false) :
    (sync_page_blocks (sync_page_blocks ctx pageId cp1 blocks key fn skip1).2.1
        pageId cp2 blocks key fn skip2).1 = false ∧
    (sync_page_blocks (sync_page_blocks ctx pageId cp1 blocks key fn skip1).2.1
        pageId cp2 blocks key fn skip2).2.2 = [] := by
  have hforce : ctx.mode ≠ str "force" := by rw [hmode]; decide
  by_cases h1 : ctx.mode ≠ str "force" ∧ _get_cached ctx.cache (str "hashes") key
      = some (sha1_text (normalize_text_for_diff (fn blocks)))
  · rw [sync_page_blocks_cached ctx pageId cp1 blocks key fn skip1 h1]
    dsimp only
    rw [sync_page_blocks_cached ctx pageId cp2 blocks key fn skip2 h1]
    exact ⟨rfl, rfl⟩
  · rw [sync_page_blocks_write ctx pageId cp1 blocks key fn skip1 h1 hdry]
    dsimp only
    rw [sync_page_blocks_cached
      { ctx with cache := _set_cached ctx.cache (str "hashes") key (sha1_text (normalize_text_for_diff (fn blocks))) }
      pageId cp2 blocks key fn skip2 ⟨hforce, get_set_cached_self _ _ _ _⟩]
    exact ⟨rfl, rfl⟩

/-- C1, witness: concrete double sync in diff mode. -/
theorem C1_second_diff_sync_is_noop_witness :
    (⟨str "diff", false, []⟩ : SyncContext).mode = str "diff" ∧
    (⟨str "diff", false, []⟩ : SyncContext).dry_run = false ∧
    ((sync_page_blocks (sync_page_blocks ⟨str "diff", false, []⟩ (str "p")
          [[⟨str "b0", str "paragraph", [], []⟩]]
          [⟨.paragraph, [⟨str "hi", false, false, str "default"⟩]⟩] (str "k")
          blocks_plain_text false).2.1 (str "p")
        [[⟨str "b0", str "paragraph", [], []⟩]]
        [⟨.paragraph, [⟨str "hi", false, false, str "default"⟩]⟩] (str "k")
        blocks_plain_text false).1 = false ∧
      (sync_page_blocks (sync_page_blocks ⟨str "diff", false, []⟩ (str "p")
          [[⟨str "b0", str "paragraph", [], []⟩]]
          [⟨.paragraph, [⟨str "hi", false, false, str "default"⟩]⟩] (str "k")
          blocks_plain_text false).2.1 (str "p")
        [[⟨str "b0", str "paragraph", [], []⟩]]
        [⟨.paragraph, [⟨str "hi", false, false, str "default"⟩]⟩] (str "k")
        blocks_plain_text false).2.2 = []) :=
  ⟨rfl, rfl, C1_second_diff_sync_is_noop _ _ _ _ _ _ _ _ _ rfl rfl⟩

/-! ## C3 — dry-run neutrality -/

/-- C3, counterexample: under `dry_run`, `sync_cast_database` on a
parent with no existing database still issues a remote
database-creation call, because `get_or_create_database` runs before
the dry-run check. -/
theorem C3_counterexample :
    (sync_cast_database remoteNoDb (str "parent") [] (str "diff") true).2
        = [WOp.createDatabase (str "parent") (str "Cast Portraits")] ∧
    [WOp.createDatabase (str "parent") (str "Cast Portraits")] ≠ ([] : List WOp) := by
  decide

/-- C3 as amended: under `dry_run`, `sync_page_blocks` issues zero
remote calls and leaves the cache (indeed the whole context)
untouched; `sync_cast_database` and `sync_voice_database` issue no row
query/create/update — every write they can issue is the
database-creation call of `get_or_create_database`, which runs before
the dry-run check and may create the container database if absent. -/
theorem C3_dry_run_writes (ctx : SyncContext) (pageId : Str)
    (childPages : List (List RChild)) (blocks : List Block) (key : Str)
    (fn : List Block → Str) (skip : Bool)
    (remote remote2 : DbRemote) (parentId parentId2 title : Str)
    (rows : List CastRec) (items : List VoiceItem) (mode mode2 : Str)
    (hdry : ctx.dry_run = true) :
    (sync_page_blocks ctx pageId childPages blocks key fn skip).2.2 = [] ∧
    (sync_page_blocks ctx pageId childPages blocks key fn skip).2.1 = ctx ∧
    (∀ op ∈ (sync_cast_database remote parentId rows mode true).2,
        ∃ p t, op = WOp.createDatabase p t) ∧
    (∀ op ∈ (sync_voice_database remote2 parentId2 title items mode2 true).2,
        ∃ p t, op = WOp.createDatabase p t) := by
  refine ⟨?_, ?_, ?_, ?_⟩
  · rw [sync_page_blocks_dry ctx pageId childPages blocks key fn skip hdry]
  · rw [sync_page_blocks_dry ctx pageId childPages blocks key fn skip hdry]
  · intro op hop
    have hops : (sync_cast_database remote parentId rows mode true).2
        = (get_or_create_database remote.parentChildren parentId (str "Cast Portraits")).2.2 := rfl
    rw [hops] at hop
    rcases get_or_create_database_ops remote.parentChildren parentId (str "Cast Portraits") with h | h
    · rw [h] at hop
      cases hop
    · rw [h] at hop
      rcases List.mem_singleton.mp hop with rfl
      exact ⟨_, _, rfl⟩
  · intro op hop
    have hops : (sync_voice_database remote2 parentId2 title items mode2 true).2
        = (get_or_create_database remote2.parentChildren parentId2
            (title ++ str " - Voice Lines")).2.2 := rfl
    rw [hops] at hop
    rcases get_or_create_database_ops remote2.parentChildren parentId2
        (title ++ str " - Voice Lines") with h | h
    · rw [h] at hop
      cases hop
    · rw [h] at hop
      rcases List.mem_singleton.mp hop with rfl
      exact ⟨_, _, rfl⟩

/-- C3, witness: concrete dry runs. -/
theorem C3_dry_run_writes_witness :
    (⟨str "diff", true, []⟩ : SyncContext).dry_run = true ∧
    ((sync_page_blocks ⟨str "diff", true, []⟩ (str "p") [[]] [] (str "k")
        blocks_plain_text false).2.2 = [] ∧
      (sync_page_blocks ⟨str "diff", true, []⟩ (str "p") [[]] [] (str "k")
        blocks_plain_text false).2.1 = ⟨str "diff", true, []⟩ ∧
      (∀ op ∈ (sync_cast_database remoteNoDb (str "parent") [] (str "diff") true).2,
          ∃ p t, op = WOp.createDatabase p t) ∧
      (∀ op ∈ (sync_voice_database remoteNoDb (str "parent") (str "T") [] (str "diff") true).2,
          ∃ p t, op = WOp.createDatabase p t)) :=
  ⟨rfl, C3_dry_run_writes ⟨str "diff", true, []⟩ (str "p") [[]] [] (str "k")
    blocks_plain_text false remoteNoDb remoteNoDb (str "parent") (str "parent") (str "T")
    [] [] (str "diff") (str "diff") rfl⟩

/-! ## C2 — dataset upsert modes -/

theorem castRecOps_cases (dsId : Str) (index : SDict) (mode : Str) (r : CastRec) :
    castRecOps dsId index mode r = [] ∨
    (∃ rid, alGet index r.name = some rid ∧ mode = str "force" ∧
      castRecOps dsId index mode r = [WOp.updateRow rid (castProps r)]) ∨
    (alGet index r.name = none ∧
      castRecOps dsId index mode r = [WOp.createRow dsId (castProps r)]) := by
  by_cases hv : r.name = [] ∨ r.image_url = []
  · left
    simp only [castRecOps, if_pos hv]
  · cases h : alGet index r.name with
    | some rowId =>
      by_cases hm : mode = str "force"
      · right; left
        refine ⟨rowId, rfl, hm, ?_⟩
        simp only [castRecOps, if_neg hv, h]
        simp [hm]
      · left
        simp only [castRecOps, if_neg hv, h]
        simp [hm]
    | none =>
      right; right
      refine ⟨rfl, ?_⟩
      simp only [castRecOps, if_neg hv, h]

theorem voiceItemOps_cases (dsId : Str) (index : SDict) (mode : Str) (it : VoiceItem) :
    voiceItemOps dsId index mode it = [] ∨
    (∃ rid, alGet index (voiceLabelOf it) = some rid ∧ mode = str "force" ∧
      voiceItemOps dsId index mode it = [WOp.updateRow rid (voicePropsOf it)]) ∨
    (alGet index (voiceLabelOf it) = none ∧
      voiceItemOps dsId index mode it = [WOp.createRow dsId (voicePropsOf it)]) := by
  by_cases hv : voiceLabelOf it = []
  · left
    simp only [voiceItemOps, if_pos hv]
  · cases h : alGet index (voiceLabelOf it) with
    | some rowId =>
      by_cases hm : mode = str "force"
      · right; left
        refine ⟨rowId, rfl, hm, ?_⟩
        simp only [voiceItemOps, if_neg hv, h]
        simp [hm]
      · left
        simp only [voiceItemOps, if_neg hv, h]
        simp [hm]
    | none =>
      right; right
      refine ⟨rfl, ?_⟩
      simp only [voiceItemOps, if_neg hv, h]

theorem castRecOps_update_mem (dsId : Str) (index : SDict) (r : CastRec) (rid : Str)
    (hn : r.name ≠ []) (hi : r.image_url ≠ [])
    (h : alGet index r.name = some rid) :
    castRecOps dsId index (str "force") r = [WOp.updateRow rid (castProps r)] := by
  simp only [castRecOps, if_neg (not_or.mpr ⟨hn, hi⟩), h]
  simp

theorem castRecOps_create_mem (dsId : Str) (index : SDict) (mode : Str) (r : CastRec)
    (hn : r.name ≠ []) (hi : r.image_url ≠ [])
    (h : alGet index r.name = none) :
    castRecOps dsId index mode r = [WOp.createRow dsId (castProps r)] := by
  simp only [castRecOps, if_neg (not_or.mpr ⟨hn, hi⟩), h]

theorem voiceItemOps_update_mem (dsId : Str) (index : SDict) (it : VoiceItem) (rid : Str)
    (hn : voiceLabelOf it ≠ [])
    (h : alGet index (voiceLabelOf it) = some rid) :
    voiceItemOps dsId index (str "force") it = [WOp.updateRow rid (voicePropsOf it)] := by
  simp only [voiceItemOps, if_neg hn, h]
  simp

theorem voiceItemOps_create_mem (dsId : Str) (index : SDict) (mode : Str) (it : VoiceItem)
    (hn : voiceLabelOf it ≠ [])
    (h : alGet index (voiceLabelOf it) = none) :
    voiceItemOps dsId index mode it = [WOp.createRow dsId (voicePropsOf it)] := by
  simp only [voiceItemOps, if_neg hn, h]

/-- C2, counterexample: the record `{name "A", image_url ""}` has its
key `A` present in the remote row index, yet a `force`-mode
`sync_cast_database` issues no write at all for it (the record fails
the `not name or not image_url` validation), contradicting "calls
`update_database_row` for every such record unconditionally". -/
theorem C2_counterexample :
    _build_title_index remoteWithCastDb.dsRows = [(str "A", str "r1")] ∧
    (sync_cast_database remoteWithCastDb (str "parent")
        [{ name := str "A", image_url := [] }] (str "force") false).2 = [] := by
  constructor
  · decide
  · decide

theorem sync_cast_database_writes (remote : DbRemote) (pid : Str) (rows : List CastRec)
    (mode : Str) :
    (sync_cast_database remote pid rows mode false).2
      = (get_or_create_database remote.parentChildren pid (str "Cast Portraits")).2.2
        ++ (rows.map (castRecOps
              (get_or_create_database remote.parentChildren pid (str "Cast Portraits")).2.1
              (_build_title_index remote.dsRows) mode)).flatten := rfl

theorem sync_voice_database_writes (remote : DbRemote) (pid title : Str)
    (items : List VoiceItem) (mode : Str) :
    (sync_voice_database remote pid title items mode false).2
      = (get_or_create_database remote.parentChildren pid (title ++ str " - Voice Lines")).2.2
        ++ (items.map (voiceItemOps
              (get_or_create_database remote.parentChildren pid (title ++ str " - Voice Lines")).2.1
              (_build_title_index remote.dsRows) mode)).flatten := rfl

theorem no_update_in_db_ops (pc : List (List RChild)) (pid t : Str) (rid : Str)
    (props : RowProps) : WOp.updateRow rid props ∉ (get_or_create_database pc pid t).2.2 := by
  rcases get_or_create_database_ops pc pid t with h | h <;> rw [h]
  · exact List.not_mem_nil _
  · intro hmem
    rcases List.mem_singleton.mp hmem with h2
    cases h2

/-- C2 as amended: in `diff` mode (indeed any mode other than `force`)
`sync_cast_database` and `sync_voice_database` never issue an
`update_database_row` call; in `force` mode they issue one for every
record whose identity key is present in the remote row index, provided
the record passes the loop's field validation (cast: nonempty name and
image URL; voice: nonempty label); records passing validation whose
key is absent are created in both modes. -/
theorem C2_upsert_first_write_wins :
    (∀ (remote : DbRemote) (pid : Str) (rows : List CastRec) (mode : Str) (dry : Bool),
        mode ≠ str "force" → ∀ rid props,
        WOp.updateRow rid props ∉ (sync_cast_database remote pid rows mode dry).2) ∧
    (∀ (remote : DbRemote) (pid : Str) (rows : List CastRec) (r : CastRec) (rid : Str),
        r ∈ rows → r.name ≠ [] → r.image_url ≠ [] →
        alGet (_build_title_index remote.dsRows) r.name = some rid →
        WOp.updateRow rid (castProps r)
          ∈ (sync_cast_database remote pid rows (str "force") false).2) ∧
    (∀ (remote : DbRemote) (pid : Str) (rows : List CastRec) (r : CastRec) (mode : Str),
        r ∈ rows → r.name ≠ [] → r.image_url ≠ [] →
        alGet (_build_title_index remote.dsRows) r.name = none →
        WOp.createRow (get_or_create_database remote.parentChildren pid (str "Cast Portraits")).2.1
            (castProps r)
          ∈ (sync_cast_database remote pid rows mode false).2) ∧
    (∀ (remote : DbRemote) (pid title : Str) (items : List VoiceItem) (mode : Str) (dry : Bool),
        mode ≠ str "force" → ∀ rid props,
        WOp.updateRow rid props ∉ (sync_voice_database remote pid title items mode dry).2) ∧
    (∀ (remote : DbRemote) (pid title : Str) (items : List VoiceItem) (it : VoiceItem) (rid : Str),
        it ∈ items → voiceLabelOf it ≠ [] →
        alGet (_build_title_index remote.dsRows) (voiceLabelOf it) = some rid →
        WOp.updateRow rid (voicePropsOf it)
          ∈ (sync_voice_database remote pid title items (str "force") false).2) ∧
    (∀ (remote : DbRemote) (pid title : Str) (items : List VoiceItem) (it : VoiceItem) (mode : Str),
        it ∈ items → voiceLabelOf it ≠ [] →
        alGet (_build_title_index remote.dsRows) (voiceLabelOf it) = none →
        WOp.createRow
            (get_or_create_database remote.parentChildren pid (title ++ str " - Voice Lines")).2.1
            (voicePropsOf it)
          ∈ (sync_voice_database remote pid title items mode false).2) := by
  refine ⟨?_, ?_, ?_, ?_, ?_, ?_⟩
  · intro remote pid rows mode dry hm rid props hmem
    cases dry with
    | true =>
      have heq : (sync_cast_database remote pid rows mode true).2
          = (get_or_create_database remote.parentChildren pid (str "Cast Portraits")).2.2 := rfl
      rw [heq] at hmem
      exact no_update_in_db_ops _ _ _ _ _ hmem
    | false =>
      rw [sync_cast_database_writes] at hmem
      rcases List.mem_append.mp hmem with hmem | hmem
      · exact no_update_in_db_ops _ _ _ _ _ hmem
      · rcases List.mem_flatten.mp hmem with ⟨l, hl, hop⟩
        rcases List.mem_map.mp hl with ⟨r, hr, rfl⟩
        rcases castRecOps_cases
            (get_or_create_database remote.parentChildren pid (str "Cast Portraits")).2.1
            (_build_title_index remote.dsRows) mode r with h | ⟨rid', _, hforce, _⟩ | ⟨_, heq⟩
        · rw [h] at hop
          exact List.not_mem_nil _ hop
        · exact hm hforce
        · rw [heq] at hop
          rcases List.mem_singleton.mp hop with h2
          cases h2
  · intro remote pid rows r rid hr hn hi hidx
    rw [sync_cast_database_writes]
    refine List.mem_append_right _ (List.mem_flatten.mpr ⟨_, List.mem_map_of_mem _ hr, ?_⟩)
    rw [castRecOps_update_mem _ _ _ _ hn hi hidx]
    exact List.mem_singleton_self _
  · intro remote pid rows r mode hr hn hi hidx
    rw [sync_cast_database_writes]
    refine List.mem_append_right _ (List.mem_flatten.mpr ⟨_, List.mem_map_of_mem _ hr, ?_⟩)
    rw [castRecOps_create_mem _ _ _ _ hn hi hidx]
    exact List.mem_singleton_self _
  · intro remote pid title items mode dry hm rid props hmem
    cases dry with
    | true =>
      have heq : (sync_voice_database remote pid title items mode true).2
          = (get_or_create_database remote.parentChildren pid (title ++ str " - Voice Lines")).2.2 := rfl
      rw [heq] at hmem
      exact no_update_in_db_ops _ _ _ _ _ hmem
    | false =>
      rw [sync_voice_database_writes] at hmem
      rcases List.mem_append.mp hmem with hmem | hmem
      · exact no_update_in_db_ops _ _ _ _ _ hmem
      · rcases List.mem_flatten.mp hmem with ⟨l, hl, hop⟩
        rcases List.mem_map.mp hl with ⟨it, hit, rfl⟩
        rcases voiceItemOps_cases
            (get_or_create_database remote.parentChildren pid (title ++ str " - Voice Lines")).2.1
            (_build_title_index remote.dsRows) mode it with h | ⟨rid', _, hforce, _⟩ | ⟨_, heq⟩
        · rw [h] at hop
          exact List.not_mem_nil _ hop
        · exact hm hforce
        · rw [heq] at hop
          rcases List.mem_singleton.mp hop with h2
          cases h2
  · intro remote pid title items it rid hit hn hidx
    rw [sync_voice_database_writes]
    refine List.mem_append_right _ (List.mem_flatten.mpr ⟨_, List.mem_map_of_mem _ hit, ?_⟩)
    rw [voiceItemOps_update_mem _ _ _ _ hn hidx]
    exact List.mem_singleton_self _
  · intro remote pid title items it mode hit hn hidx
    rw [sync_voice_database_writes]
    refine List.mem_append_right _ (List.mem_flatten.mpr ⟨_, List.mem_map_of_mem _ hit, ?_⟩)
    rw [voiceItemOps_create_mem _ _ _ _ hn hidx]
    exact List.mem_singleton_self _

/-- C2, witness: on the remote already holding row `A`, a diff-mode
sync of a valid record named `A` issues no update, a force-mode sync
issues exactly the update. -/
theorem C2_upsert_first_write_wins_witness :
    ((str "diff" : Str) ≠ str "force" ∧
      ∀ rid props, WOp.updateRow rid props ∉ (sync_cast_database remoteWithCastDb (str "parent")
        [{ name := str "A", image_url := str "u" }] (str "diff") false).2) ∧
    ({ name := str "A", image_url := str "u" } ∈
        ([{ name := str "A", image_url := str "u" }] : List CastRec) ∧
      (str "A" : Str) ≠ [] ∧ (str "u" : Str) ≠ [] ∧
      alGet (_build_title_index remoteWithCastDb.dsRows) (str "A") = some (str "r1") ∧
      WOp.updateRow (str "r1") (castProps { name := str "A", image_url := str "u" })
        ∈ (sync_cast_database remoteWithCastDb (str "parent")
            [{ name := str "A", image_url := str "u" }] (str "force") false).2) := by
  constructor
  · exact ⟨by decide, C2_upsert_first_write_wins.1 remoteWithCastDb (str "parent")
      [{ name := str "A", image_url := str "u" }] (str "diff") false (by decide)⟩
  · refine ⟨List.mem_singleton_self _, by decide, by decide, by decide, ?_⟩
    exact C2_upsert_first_write_wins.2.1 remoteWithCastDb (str "parent")
      [{ name := str "A", image_url := str "u" }] { name := str "A", image_url := str "u" }
      (str "r1") (List.mem_singleton_self _) (by decide) (by decide) (by decide)

/-! ## C6 — blank-line normalization -/

theorem replaceCRLF_id (s : Str) (h : '\r' ∉ s) : replaceCRLF s = s := by
  induction s with
  | nil => rfl
  | cons c rest ih =>
    have hc : c ≠ '\r' := fun hh => h (hh ▸ List.mem_cons_self c rest)
    cases rest with
    | nil => rfl
    | cons d rest2 =>
      show replaceCRLF (c :: d :: rest2) = c :: d :: rest2
      rw [replaceCRLF, if_neg (by simp [hc]), ih (fun hm => h (List.mem_cons_of_mem c hm))]

theorem replaceCR_id (s : Str) (h : '\r' ∉ s) : replaceCR s = s := by
  induction s with
  | nil => rfl
  | cons c rest ih =>
    have hc : c ≠ '\r' := fun hh => h (hh ▸ List.mem_cons_self c rest)
    simp only [replaceCR, List.map_cons, if_neg hc]
    have := ih (fun hm => h (List.mem_cons_of_mem c hm))
    simp only [replaceCR] at this
    rw [this]

theorem splitOnChar_cons_sep (sep : Char) (rest : Str) :
    splitOnChar sep (sep :: rest) = [] :: splitOnChar sep rest := by
  simp [splitOnChar]

theorem splitOnChar_cons_ne (sep c : Char) (rest : Str) (h : ¬ c = sep)
    (t : Str) (ts : List Str) (hs : splitOnChar sep rest = t :: ts) :
    splitOnChar sep (c :: rest) = (c :: t) :: ts := by
  simp [splitOnChar, h, hs]

theorem splitOnChar_ne_nil (sep : Char) (s : Str) : splitOnChar sep s ≠ [] := by
  cases s with
  | nil => simp [splitOnChar]
  | cons c rest =>
    by_cases hc : c = sep
    · subst hc
      rw [splitOnChar_cons_sep]
      simp
    · cases hs : splitOnChar sep rest with
      | nil => simp [splitOnChar, hc, hs]
      | cons t ts =>
        rw [splitOnChar_cons_ne sep c rest hc t ts hs]
        simp

theorem splitOnChar_append_sep (sep : Char) (X Y : Str) :
    splitOnChar sep (X ++ sep :: Y) = splitOnChar sep X ++ splitOnChar sep Y := by
  induction X with
  | nil =>
    rw [List.nil_append, splitOnChar_cons_sep]
    rfl
  | cons c X' ih =>
    by_cases hc : c = sep
    · subst hc
      rw [List.cons_append, splitOnChar_cons_sep, splitOnChar_cons_sep, ih, List.cons_append]
    · obtain ⟨t', ts', ht⟩ : ∃ t' ts', splitOnChar sep X' = t' :: ts' := by
        cases h : splitOnChar sep X' with
        | nil => exact absurd h (splitOnChar_ne_nil sep X')
        | cons a b => exact ⟨a, b, rfl⟩
      have h2 : splitOnChar sep (X' ++ sep :: Y) = t' :: (ts' ++ splitOnChar sep Y) := by
        rw [ih, ht, List.cons_append]
      rw [List.cons_append, splitOnChar_cons_ne sep c _ hc _ _ h2,
        splitOnChar_cons_ne sep c X' hc t' ts' ht, List.cons_append]

theorem splitOnChar_replicate_sep (sep : Char) (k : Nat) (Y : Str) :
    splitOnChar sep (List.replicate k sep ++ Y)
      = List.replicate k [] ++ splitOnChar sep Y := by
  induction k with
  | zero => simp
  | succ k ih =>
    rw [List.replicate_succ, List.cons_append, splitOnChar_cons_sep, ih,
      List.replicate_succ, List.cons_append]

theorem normLoop_cons_blank (rest : List Str) (r : Nat) :
    normLoop ([] :: rest) r
      = (if r + 1 ≤ 2 then [([] : Str)] else []) ++ normLoop rest (r + 1) := by
  simp [normLoop]

theorem normLoop_cons_ne (ln : Str) (rest : List Str) (r : Nat) (h : ¬ ln = []) :
    normLoop (ln :: rest) r = ln :: normLoop rest 0 := by
  simp [normLoop, h]

theorem normState_cons (ln : Str) (rest : List Str) (r : Nat) :
    normState (ln :: rest) r = normState rest (if ln = [] then r + 1 else 0) := rfl

theorem normLoop_append (X Y : List Str) (r : Nat) :
    normLoop (X ++ Y) r = normLoop X r ++ normLoop Y (normState X r) := by
  induction X generalizing r with
  | nil => simp [normLoop, normState]
  | cons ln rest ih =>
    by_cases hl : ln = []
    · subst hl
      rw [List.cons_append, normLoop_cons_blank, normLoop_cons_blank, normState_cons,
        if_pos rfl, ih (r + 1), List.append_assoc]
    · rw [List.cons_append, normLoop_cons_ne ln _ r hl, normLoop_cons_ne ln rest r hl,
        normState_cons, if_neg hl, ih 0, List.cons_append]

theorem normLoop_state_ge2 (lines : List Str) (r1 r2 : Nat) (h1 : 2 ≤ r1) (h2 : 2 ≤ r2) :
    normLoop lines r1 = normLoop lines r2 := by
  induction lines generalizing r1 r2 with
  | nil => rfl
  | cons ln rest ih =>
    by_cases hl : ln = []
    · subst hl
      rw [normLoop_cons_blank, normLoop_cons_blank, if_neg (by omega), if_neg (by omega),
        ih (r1 + 1) (r2 + 1) (by omega) (by omega)]
    · rw [normLoop_cons_ne ln rest r1 hl, normLoop_cons_ne ln rest r2 hl]

theorem normLoop_blanks_ge2 (k : Nat) (rest : List Str) (r : Nat) (h : 2 ≤ r) :
    normLoop (List.replicate k [] ++ rest) r = normLoop rest (r + k) := by
  induction k generalizing r with
  | zero => simp
  | succ k ih =>
    rw [List.replicate_succ, List.cons_append, normLoop_cons_blank, if_neg (by omega),
      List.nil_append, ih (r + 1) (by omega)]
    congr 1
    omega

theorem normLoop_blankrun_switch (k1 k2 : Nat) (rest : List Str) (r : Nat)
    (h1 : 2 ≤ k1) (h2 : 2 ≤ k2) :
    normLoop (List.replicate k1 [] ++ rest) r
      = normLoop (List.replicate k2 [] ++ rest) r := by
  obtain ⟨m1, rfl⟩ : ∃ m1, k1 = m1 + 2 := ⟨k1 - 2, by omega⟩
  obtain ⟨m2, rfl⟩ : ∃ m2, k2 = m2 + 2 := ⟨k2 - 2, by omega⟩
  have e : ∀ (m : Nat), List.replicate (m + 2) ([] : Str) ++ rest
      = [] :: [] :: (List.replicate m [] ++ rest) := by
    intro m
    rw [List.replicate_succ, List.replicate_succ, List.cons_append, List.cons_append]
  rw [e m1, e m2, normLoop_cons_blank, normLoop_cons_blank, normLoop_cons_blank,
    normLoop_cons_blank, normLoop_blanks_ge2 m1 rest (r + 1 + 1) (by omega),
    normLoop_blanks_ge2 m2 rest (r + 1 + 1) (by omega),
    normLoop_state_ge2 rest (r + 1 + 1 + m1) (r + 1 + 1 + m2) (by omega) (by omega)]

theorem normalize_shape (A B : Str) (k : Nat) (hk : 3 ≤ k)
    (hA : '\r' ∉ A) (hB : '\r' ∉ B) :
    normalize_text_for_diff (A ++ List.replicate k '\n' ++ B)
      = List.intercalate (str "\n")
          (((normLoop ((splitOnChar '\n' A).map pyRstrip) 0
              ++ normLoop (List.replicate (k - 1) [] ++ (splitOnChar '\n' B).map pyRstrip)
                  (normState ((splitOnChar '\n' A).map pyRstrip) 0)).reverse.dropWhile
            (· = [])).reverse) := by
  have hne : A ++ List.replicate k '\n' ++ B ≠ [] := by
    intro h
    have h2 := congrArg List.length h
    simp at h2
    omega
  have hr : '\r' ∉ A ++ List.replicate k '\n' ++ B := by
    intro hmem
    rcases List.mem_append.mp hmem with h | h
    · rcases List.mem_append.mp h with h | h
      · exact hA h
      · exact absurd (List.mem_replicate.mp h).2 (by decide)
    · exact hB h
  simp only [normalize_text_for_diff, if_neg hne]
  rw [replaceCRLF_id _ hr, replaceCR_id _ hr]
  obtain ⟨k', rfl⟩ : ∃ k', k = k' + 1 := ⟨k - 1, by omega⟩
  rw [show A ++ List.replicate (k' + 1) '\n' ++ B
      = A ++ '\n' :: (List.replicate k' '\n' ++ B) from by
    rw [List.replicate_succ]
    simp]
  rw [splitOnChar_append_sep, splitOnChar_replicate_sep, List.map_append, List.map_append,
    List.map_replicate, show pyRstrip [] = [] from rfl, normLoop_append, Nat.add_sub_cancel]

/-- C6, counterexample: `normalize_text_for_diff` keeps up to two
consecutive blank lines, not one: "a\n\n\nb" (a run of two blank
lines) is a fixed point, and it does not normalize to the same string
as "a\n\nb" (a run of one blank line), though both runs are at or
above the claimed cap of one. -/
theorem C6_counterexample :
    normalize_text_for_diff (str "a\n\n\nb") = str "a\n\n\nb" ∧
    normalize_text_for_diff (str "a\n\nb") ≠ normalize_text_for_diff (str "a\n\n\nb") := by
  decide

/-- C6 as amended: the cap is two blank lines (`blank_run <= 2`), so
any two inputs that differ only in the length of a newline run of at
least 3 newlines (i.e. at least two blank lines) normalize to the same
string and therefore hash identically. -/
theorem C6_blank_runs_collapse (A B : Str) (m n : Nat) (hm : 3 ≤ m) (hn : 3 ≤ n)
    (hA : '\r' ∉ A) (hB : '\r' ∉ B) :
    normalize_text_for_diff (A ++ List.replicate m '\n' ++ B)
      = normalize_text_for_diff (A ++ List.replicate n '\n' ++ B) ∧
    sha1_text (normalize_text_for_diff (A ++ List.replicate m '\n' ++ B))
      = sha1_text (normalize_text_for_diff (A ++ List.replicate n '\n' ++ B)) := by
  have main : normalize_text_for_diff (A ++ List.replicate m '\n' ++ B)
      = normalize_text_for_diff (A ++ List.replicate n '\n' ++ B) := by
    rw [normalize_shape A B m hm hA hB, normalize_shape A B n hn hA hB,
      normLoop_blankrun_switch (m - 1) (n - 1) _ _ (by omega) (by omega)]
  exact ⟨main, congrArg sha1_text main⟩

/-- C6, witness: `"a" ++ 3 newlines ++ "b"` and `"a" ++ 6 newlines ++
"b"` (runs of 2 and 5 blank lines) normalize and hash identically. -/
theorem C6_blank_runs_collapse_witness :
    (3 ≤ 3 ∧ 3 ≤ 6 ∧ '\r' ∉ str "a" ∧ '\r' ∉ str "b") ∧
    normalize_text_for_diff (str "a" ++ List.replicate 3 '\n' ++ str "b")
      = normalize_text_for_diff (str "a" ++ List.replicate 6 '\n' ++ str "b") ∧
    sha1_text (normalize_text_for_diff (str "a" ++ List.replicate 3 '\n' ++ str "b"))
      = sha1_text (normalize_text_for_diff (str "a" ++ List.replicate 6 '\n' ++ str "b")) :=
  ⟨⟨by decide, by decide, by decide, by decide⟩,
    C6_blank_runs_collapse (str "a") (str "b") 3 6 (by decide) (by decide)
      (by decide) (by decide)⟩

/-! ## C7 — heading rendering -/

theorem dropWhile_idem (p : Char → Bool) (l : Str) :
    (l.dropWhile p).dropWhile p = l.dropWhile p := by
  induction l with
  | nil => rfl
  | cons c rest ih =>
    by_cases h : p c = true
    · rw [List.dropWhile_cons_of_pos h, ih]
    · rw [List.dropWhile_cons_of_neg h, List.dropWhile_cons_of_neg h]

theorem pyRstrip_cons_of_neg (c : Char) (l : Str) (h : ¬ isPySpace c = true) :
    pyRstrip (c :: l) = c :: pyRstrip l := by
  unfold pyRstrip
  rw [List.reverse_cons, List.dropWhile_append]
  by_cases he : (l.reverse.dropWhile isPySpace).isEmpty = true
  · rw [if_pos he, List.dropWhile_cons_of_neg h]
    have h2 : l.reverse.dropWhile isPySpace = [] := List.isEmpty_iff.mp he
    simp [h2]
  · rw [if_neg he]
    simp

theorem pyRstrip_idem (l : Str) : pyRstrip (pyRstrip l) = pyRstrip l := by
  unfold pyRstrip
  rw [List.reverse_reverse, dropWhile_idem]

theorem pyRstrip_keep_of_head (c0 : Char) (t : Str) (h : ¬ isPySpace c0 = true) :
    ¬ (((c0 :: t).reverse.dropWhile isPySpace).isEmpty = true) := by
  intro he
  have h2 : pyRstrip (c0 :: t) = [] := by
    unfold pyRstrip
    rw [List.isEmpty_iff.mp he]
    rfl
  rw [pyRstrip_cons_of_neg c0 t h] at h2
  cases h2

theorem pyRstrip_append_keep (X B : Str)
    (h : ¬ ((B.reverse.dropWhile isPySpace).isEmpty = true)) :
    pyRstrip (X ++ B) = X ++ pyRstrip B := by
  unfold pyRstrip
  rw [List.reverse_append, List.dropWhile_append, if_neg h, List.reverse_append,
    List.reverse_reverse]

theorem pyLstrip_cons_of_neg (c : Char) (l : Str) (h : ¬ isPySpace c = true) :
    pyLstrip (c :: l) = c :: l := by
  simp only [pyLstrip, List.dropWhile_cons_of_neg h]

theorem lstrip_length_le (s : Str) : (pyLstrip s).length ≤ s.length :=
  (List.dropWhile_sublist isPySpace).length_le

theorem rstrip_length_le (s : Str) : (pyRstrip s).length ≤ s.length := by
  unfold pyRstrip
  calc (s.reverse.dropWhile isPySpace).reverse.length
      = (s.reverse.dropWhile isPySpace).length := List.length_reverse _
    _ ≤ s.reverse.length := (List.dropWhile_sublist isPySpace).length_le
    _ = s.length := List.length_reverse s

theorem pyStrip_length_le (s : Str) : (pyStrip s).length ≤ s.length :=
  le_trans (rstrip_length_le _) (lstrip_length_le s)

theorem lstrip_idem (s : Str) : pyLstrip (pyLstrip s) = pyLstrip s :=
  dropWhile_idem isPySpace s

theorem dropWhile_head_not (p : Char → Bool) (l : Str) (c : Char) (t : Str)
    (h : l.dropWhile p = c :: t) : ¬ p c = true := by
  induction l with
  | nil => cases h
  | cons a rest ih =>
    by_cases ha : p a = true
    · rw [List.dropWhile_cons_of_pos ha] at h
      exact ih h
    · rw [List.dropWhile_cons_of_neg ha] at h
      injection h with h1 _
      rw [← h1]
      exact ha

theorem pyStrip_idem (s : Str) : pyStrip (pyStrip s) = pyStrip s := by
  unfold pyStrip
  cases hl : pyLstrip s with
  | nil => rfl
  | cons c t =>
    have hc : ¬ isPySpace c = true := dropWhile_head_not isPySpace s c t hl
    rw [pyRstrip_cons_of_neg c t hc, pyLstrip_cons_of_neg c _ hc,
      pyRstrip_cons_of_neg c _ hc, pyRstrip_idem]

theorem strip_fixed_head_not_space (c0 : Char) (t0 : Str)
    (h : pyStrip (c0 :: t0) = c0 :: t0) : ¬ isPySpace c0 = true := by
  intro hp
  have h1 : pyLstrip (c0 :: t0) = pyLstrip t0 := by
    simp [pyLstrip, List.dropWhile_cons_of_pos hp]
  have h2 : (pyStrip (c0 :: t0)).length ≤ t0.length := by
    unfold pyStrip
    rw [h1]
    exact le_trans (rstrip_length_le _) (lstrip_length_le t0)
  rw [h] at h2
  simp at h2

theorem rfindSpaceAux_lt (w : Str) : ∀ (k : Nat) (acc : Option Nat),
    (∀ j, acc = some j → j < k) → ∀ i, rfindSpaceAux w k acc = some i → i < k + w.length := by
  induction w with
  | nil =>
    intro k acc hacc i h
    have := hacc i h
    simpa using Nat.lt_of_lt_of_le this (Nat.le_add_right k 0)
  | cons c rest ih =>
    intro k acc hacc i h
    have h2 := ih (k + 1) (if c = ' ' then some k else acc) ?hacc i h
    · simp only [List.length_cons]
      omega
    case hacc =>
      intro j hj
      by_cases hc : c = ' '
      · rw [if_pos hc] at hj
        injection hj with hj
        omega
      · rw [if_neg hc] at hj
        exact Nat.lt_succ_of_lt (hacc j hj)

theorem rfindSpace_lt (w : Str) (i : Nat) (h : rfindSpace w = some i) : i < w.length := by
  have := rfindSpaceAux_lt w 0 none (fun j hj => by cases hj) i h
  simpa using this

theorem splitTextGo_succ (fuel : Nat) (s : Str) (hbig : s.length > 1800) :
    ∃ cut, 200 ≤ cut ∧ cut ≤ 1800 ∧
      splitTextGo 1800 (fuel + 1) s
        = pyStrip (s.take cut) :: splitTextGo 1800 fuel (pyStrip (s.drop cut)) := by
  simp only [splitTextGo, if_pos hbig]
  cases hr : rfindSpace (s.take 1800) with
  | none =>
    refine ⟨1800, by omega, le_refl _, ?_⟩
    norm_num
  | some i =>
    by_cases hi : (i : Int) < 200
    · refine ⟨1800, by omega, le_refl _, ?_⟩
      rw [if_pos hi]
    · have hlt : i < 1800 := by
        have h2 := rfindSpace_lt _ _ hr
        have h3 : (s.take 1800).length ≤ 1800 := List.length_take_le _ _
        omega
      refine ⟨i, by omega, by omega, ?_⟩
      rw [if_neg hi]
      simp

theorem splitTextGo_bounds : ∀ (fuel : Nat) (s : Str), pyStrip s = s → s.length < fuel →
    ∀ c ∈ splitTextGo 1800 fuel s, c ≠ [] ∧ c.length ≤ 1800 := by
  intro fuel
  induction fuel with
  | zero =>
    intro s _ hlen c hc
    exact absurd hlen (Nat.not_lt_zero _)
  | succ fuel ih =>
    intro s hs hlen c hc
    by_cases hbig : s.length > 1800
    · obtain ⟨cut, h200, h1800, heq⟩ := splitTextGo_succ fuel s hbig
      rw [heq] at hc
      obtain ⟨c0, t0, rfl⟩ : ∃ c0 t0, s = c0 :: t0 := by
        cases s with
        | nil => simp at hbig
        | cons a b => exact ⟨a, b, rfl⟩
      have hc0 : ¬ isPySpace c0 = true := strip_fixed_head_not_space c0 t0 hs
      rcases List.mem_cons.mp hc with rfl | hc2
      · obtain ⟨cut', rfl⟩ : ∃ cut', cut = cut' + 1 := ⟨cut - 1, by omega⟩
        rw [List.take_succ_cons]
        constructor
        · rw [show pyStrip (c0 :: List.take cut' t0)
              = pyRstrip (c0 :: List.take cut' t0) from by
            unfold pyStrip
            rw [pyLstrip_cons_of_neg _ _ hc0]]
          rw [pyRstrip_cons_of_neg _ _ hc0]
          exact List.cons_ne_nil _ _
        · calc (pyStrip (c0 :: List.take cut' t0)).length
              ≤ (c0 :: List.take cut' t0).length := pyStrip_length_le _
            _ = (List.take cut' t0).length + 1 := List.length_cons _ _
            _ ≤ cut' + 1 := by
                have := List.length_take_le cut' t0
                omega
            _ ≤ 1800 := h1800
      · refine ih (pyStrip ((c0 :: t0).drop cut)) (pyStrip_idem _) ?_ c hc2
        have hd : ((c0 :: t0).drop cut).length = (c0 :: t0).length - cut :=
          List.length_drop _ _
        have hps := pyStrip_length_le ((c0 :: t0).drop cut)
        have hl : (c0 :: t0).length ≤ fuel + 1 := by omega
        omega
    · simp only [splitTextGo, if_neg hbig] at hc
      by_cases hnil : s = []
      · rw [if_pos hnil] at hc
        cases hc
      · rw [if_neg hnil] at hc
        rcases List.mem_singleton.mp hc with rfl
        exact ⟨hnil, by omega⟩

theorem dropWhile_all_neg (p : Char → Bool) (l : Str) (h : ∀ c ∈ l, ¬ p c = true) :
    l.dropWhile p = l := by
  cases l with
  | nil => rfl
  | cons c rest => exact List.dropWhile_cons_of_neg (h c (List.mem_cons_self c rest))

theorem pyStrip_all_nonspace (l : Str) (h : ∀ c ∈ l, ¬ isPySpace c = true) :
    pyStrip l = l := by
  unfold pyStrip pyLstrip pyRstrip
  rw [dropWhile_all_neg isPySpace l h,
    dropWhile_all_neg isPySpace l.reverse (fun c hc => h c (List.mem_reverse.mp hc)),
    List.reverse_reverse]

theorem pyStrip_replicate_a (n : Nat) : pyStrip (List.replicate n 'a') = List.replicate n 'a' :=
  pyStrip_all_nonspace _ (fun c hc => by rw [List.eq_of_mem_replicate hc]; decide)

theorem pyStrip_aSpA (m n : Nat) (hm : 1 ≤ m) (hn : 1 ≤ n) :
    pyStrip (List.replicate m 'a' ++ ' ' :: List.replicate n 'a')
      = List.replicate m 'a' ++ ' ' :: List.replicate n 'a' := by
  obtain ⟨m', rfl⟩ : ∃ m', m = m' + 1 := ⟨m - 1, by omega⟩
  unfold pyStrip
  have hshape : List.replicate (m' + 1) 'a' ++ ' ' :: List.replicate n 'a'
      = 'a' :: (List.replicate m' 'a' ++ ' ' :: List.replicate n 'a') := by
    rw [List.replicate_succ, List.cons_append]
  rw [hshape, pyLstrip_cons_of_neg _ _ (by decide), ← hshape]
  have hshape2 : List.replicate (m' + 1) 'a' ++ ' ' :: List.replicate n 'a'
      = (List.replicate (m' + 1) 'a' ++ [' ']) ++ List.replicate n 'a' := by
    simp
  rw [hshape2, pyRstrip_append_keep, ← hshape2]
  · have : pyRstrip (List.replicate n 'a') = List.replicate n 'a' := by
      unfold pyRstrip
      rw [List.reverse_replicate,
        dropWhile_all_neg isPySpace _ (fun c hc => by rw [List.eq_of_mem_replicate hc]; decide),
        List.reverse_replicate]
    rw [hshape2, this]
  · obtain ⟨n', rfl⟩ : ∃ n', n = n' + 1 := ⟨n - 1, by omega⟩
    rw [List.replicate_succ]
    exact pyRstrip_keep_of_head 'a' _ (by decide)

theorem rfindSpaceAux_append (X Y : Str) : ∀ (k : Nat) (acc : Option Nat),
    rfindSpaceAux (X ++ Y) k acc = rfindSpaceAux Y (k + X.length) (rfindSpaceAux X k acc) := by
  induction X with
  | nil => intro k acc; simp [rfindSpaceAux]
  | cons c rest ih =>
    intro k acc
    rw [List.cons_append]
    show rfindSpaceAux (rest ++ Y) (k + 1) _ = _
    rw [ih (k + 1)]
    congr 1
    simp
    omega

theorem rfindSpaceAux_no_space (w : Str) : ∀ (k : Nat) (acc : Option Nat), ' ' ∉ w →
    rfindSpaceAux w k acc = acc := by
  induction w with
  | nil => intro k acc _; rfl
  | cons c rest ih =>
    intro k acc h
    have hc : ¬ c = ' ' := fun hh => h (hh ▸ List.mem_cons_self c rest)
    show rfindSpaceAux rest (k + 1) (if c = ' ' then some k else acc) = acc
    rw [if_neg hc, ih (k + 1) acc (fun hm => h (List.mem_cons_of_mem c hm))]

theorem rfindSpace_no_space (w : Str) (h : ' ' ∉ w) : rfindSpace w = none :=
  rfindSpaceAux_no_space w 0 none h

theorem rfindSpace_one_space (X Y : Str) (hX : ' ' ∉ X) (hY : ' ' ∉ Y) :
    rfindSpace (X ++ ' ' :: Y) = some X.length := by
  unfold rfindSpace
  rw [rfindSpaceAux_append X (' ' :: Y) 0 none, rfindSpaceAux_no_space X 0 none hX]
  show rfindSpaceAux Y (0 + X.length + 1) (if ' ' = ' ' then some (0 + X.length) else none)
      = some X.length
  rw [if_pos rfl, rfindSpaceAux_no_space Y _ _ hY]
  congr 1
  omega

theorem space_not_mem_replicate_a (n : Nat) : ' ' ∉ List.replicate n 'a' := by
  intro h
  have := List.eq_of_mem_replicate h
  cases this

theorem splitTextGo_big (fuel : Nat) (s : Str) (hbig : s.length > 1800)
    (hr : rfindSpace (s.take 1800) = none) :
    splitTextGo 1800 (fuel + 1) s
      = pyStrip (s.take 1800) :: splitTextGo 1800 fuel (pyStrip (s.drop 1800)) := by
  simp only [splitTextGo, if_pos hbig, hr]
  norm_num

theorem splitTextGo_cutat (fuel : Nat) (s : Str) (i : Nat) (hbig : s.length > 1800)
    (hr : rfindSpace (s.take 1800) = some i) (hi : 200 ≤ i) :
    splitTextGo 1800 (fuel + 1) s
      = pyStrip (s.take i) :: splitTextGo 1800 fuel (pyStrip (s.drop i)) := by
  simp only [splitTextGo, if_pos hbig, hr]
  rw [if_neg (by omega : ¬ ((i : Int) < 200))]
  simp

theorem splitTextGo_small (fuel : Nat) (s : Str) (h : ¬ s.length > 1800) (hne : s ≠ []) :
    splitTextGo 1800 (fuel + 1) s = [s] := by
  simp only [splitTextGo, if_neg h, if_neg hne]

theorem splitTextGo_replicate_step (fuel n : Nat) (hn : n > 1800) :
    splitTextGo 1800 (fuel + 1) (List.replicate n 'a')
      = List.replicate 1800 'a' :: splitTextGo 1800 fuel (List.replicate (n - 1800) 'a') := by
  rw [splitTextGo_big fuel _ (by simpa using hn)
    (by rw [List.take_replicate, show min 1800 n = 1800 from by omega]
        exact rfindSpace_no_space _ (space_not_mem_replicate_a _))]
  rw [List.take_replicate, List.drop_replicate, show min 1800 n = 1800 from by omega,
    pyStrip_replicate_a, pyStrip_replicate_a]

theorem split_text_replicate_5000 :
    _split_text (List.replicate 5000 'a')
      = [List.replicate 1800 'a', List.replicate 1800 'a', List.replicate 1400 'a'] := by
  show splitTextGo 1800 ((pyStrip (List.replicate 5000 'a')).length + 1)
      (pyStrip (List.replicate 5000 'a')) = _
  rw [pyStrip_replicate_a, List.length_replicate 5000 'a',
    splitTextGo_replicate_step 5000 5000 (by omega),
    show (5000 : Nat) - 1800 = 3200 from by norm_num,
    show (5000 : Nat) = 4999 + 1 from by norm_num,
    splitTextGo_replicate_step 4999 3200 (by omega),
    show (3200 : Nat) - 1800 = 1400 from by norm_num,
    show (4999 : Nat) = 4998 + 1 from by norm_num,
    splitTextGo_small 4998 _ (by rw [List.length_replicate]; omega)
      (by rw [ne_eq, List.replicate_eq_nil_iff]; omega)]

theorem pyStrip_space_replicate (n : Nat) :
    pyStrip (' ' :: List.replicate n 'a') = List.replicate n 'a' := by
  unfold pyStrip
  rw [show pyLstrip (' ' :: List.replicate n 'a') = List.replicate n 'a' from by
    unfold pyLstrip
    rw [List.dropWhile_cons_of_pos (by decide),
      dropWhile_all_neg _ _ (fun c hc => by rw [List.eq_of_mem_replicate hc]; decide)]]
  unfold pyRstrip
  rw [List.reverse_replicate,
    dropWhile_all_neg _ _ (fun c hc => by rw [List.eq_of_mem_replicate hc]; decide),
    List.reverse_replicate]

theorem split_text_longParaOneSpace :
    _split_text longParaOneSpace
      = [List.replicate 1800 'a', List.replicate 200 'a',
         List.replicate 1800 'a', List.replicate 1199 'a'] := by
  have hlen : longParaOneSpace.length = 5000 := by
    unfold longParaOneSpace
    rw [List.length_append, List.length_replicate, List.length_cons, List.length_replicate]
  have hstrip : pyStrip longParaOneSpace = longParaOneSpace :=
    pyStrip_aSpA 2000 2999 (by omega) (by omega)
  show splitTextGo 1800 ((pyStrip longParaOneSpace).length + 1) (pyStrip longParaOneSpace) = _
  rw [hstrip, hlen]
  have htake1 : longParaOneSpace.take 1800 = List.replicate 1800 'a' := by
    unfold longParaOneSpace
    rw [List.take_append_eq_append_take, List.take_replicate, List.length_replicate,
      show (1800 : Nat) - 2000 = 0 from by norm_num, List.take_zero, List.append_nil,
      show min 1800 2000 = 1800 from by norm_num]
  have hdrop1 : longParaOneSpace.drop 1800
      = List.replicate 200 'a' ++ ' ' :: List.replicate 2999 'a' := by
    unfold longParaOneSpace
    rw [List.drop_append_eq_append_drop, List.drop_replicate, List.length_replicate,
      show (1800 : Nat) - 2000 = 0 from by norm_num, List.drop_zero,
      show (2000 : Nat) - 1800 = 200 from by norm_num]
  rw [splitTextGo_big 5000 _ (by rw [hlen]; omega)
      (by rw [htake1]; exact rfindSpace_no_space _ (space_not_mem_replicate_a _)),
    htake1, hdrop1, pyStrip_replicate_a, pyStrip_aSpA 200 2999 (by omega) (by omega)]
  have hlen2 : (List.replicate 200 'a' ++ ' ' :: List.replicate 2999 'a').length = 3200 := by
    rw [List.length_append, List.length_replicate, List.length_cons, List.length_replicate]
  have htake2 : (List.replicate 200 'a' ++ ' ' :: List.replicate 2999 'a').take 1800
      = List.replicate 200 'a' ++ ' ' :: List.replicate 1599 'a' := by
    rw [List.take_append_eq_append_take, List.take_replicate, List.length_replicate,
      show min 1800 200 = 200 from by norm_num,
      show (1800 : Nat) - 200 = 1599 + 1 from by norm_num, List.take_succ_cons,
      List.take_replicate, show min 1599 2999 = 1599 from by norm_num]
  have hr2 : rfindSpace ((List.replicate 200 'a' ++ ' ' :: List.replicate 2999 'a').take 1800)
      = some 200 := by
    rw [htake2, rfindSpace_one_space _ _ (space_not_mem_replicate_a 200)
      (space_not_mem_replicate_a 1599), List.length_replicate]
  have htake2b : (List.replicate 200 'a' ++ ' ' :: List.replicate 2999 'a').take 200
      = List.replicate 200 'a' := by
    rw [List.take_append_eq_append_take, List.take_replicate, List.length_replicate,
      show (200 : Nat) - 200 = 0 from by norm_num, List.take_zero, List.append_nil,
      show min 200 200 = 200 from by norm_num]
  have hdrop2 : (List.replicate 200 'a' ++ ' ' :: List.replicate 2999 'a').drop 200
      = ' ' :: List.replicate 2999 'a' := by
    rw [List.drop_append_eq_append_drop, List.drop_replicate, List.length_replicate,
      show (200 : Nat) - 200 = 0 from by norm_num, List.drop_zero,
      show List.replicate 0 'a' = [] from rfl, List.nil_append]
  rw [show (5000 : Nat) = 4999 + 1 from by norm_num,
    splitTextGo_cutat 4999 _ 200 (by rw [hlen2]; omega) hr2 (by omega),
    htake2b, hdrop2, pyStrip_replicate_a, pyStrip_space_replicate,
    show (4999 : Nat) = 4998 + 1 from by norm_num,
    splitTextGo_replicate_step 4998 2999 (by omega),
    show (2999 : Nat) - 1800 = 1199 from by norm_num,
    show (4998 : Nat) = 4997 + 1 from by norm_num,
    splitTextGo_small 4997 _ (by rw [List.length_replicate]; omega)
      (by rw [ne_eq, List.replicate_eq_nil_iff]; omega)]

/-- C8, counterexample: a 5000-character paragraph whose only space is
at index 2000 has no space in its final 1800 characters, yet
`_split_text` yields 4 blocks, not 3: the second iteration's window
still contains that space at index 200 of the remainder, and the code
soft-cuts at any space at window index ≥ 200 (not only within the
trailing ~200 characters). -/
theorem C8_counterexample :
    longParaOneSpace.length = 5000 ∧
    ' ' ∉ longParaOneSpace.drop 3200 ∧
    (_split_text longParaOneSpace).length = 4 ∧ (4 : Nat) ≠ 3 := by
  refine ⟨?_, ?_, ?_, by omega⟩
  · unfold longParaOneSpace
    rw [List.length_append, List.length_replicate, List.length_cons, List.length_replicate]
  · have hd : longParaOneSpace.drop 3200 = List.replicate 1800 'a' := by
      unfold longParaOneSpace
      rw [List.drop_append_eq_append_drop, List.drop_replicate, List.length_replicate,
        show (2000 : Nat) - 3200 = 0 from by norm_num,
        show List.replicate 0 'a' = [] from rfl, List.nil_append,
        show (3200 : Nat) - 2000 = 1199 + 1 from by norm_num, List.drop_succ_cons,
        List.drop_replicate, show (2999 : Nat) - 1199 = 1800 from by norm_num]
    rw [hd]
    exact space_not_mem_replicate_a 1800
  · rw [split_text_longParaOneSpace]
    rfl

/-- C8 as amended: every chunk `_split_text` emits is nonempty and at
most 1800 characters, and a 5000-character paragraph containing no
space at all splits into exactly 3 blocks (1800/1800/1400); but the
hard cut happens whenever the last space of the 1800-character window
sits at an index below 200, so a space in an earlier part of the text
can still soft-cut and yield more than 3 blocks. -/
theorem C8_split_text_bounds :
    (∀ (s : Str), ∀ c ∈ _split_text s, c ≠ [] ∧ c.length ≤ 1800) ∧
    _split_text (List.replicate 5000 'a')
      = [List.replicate 1800 'a', List.replicate 1800 'a', List.replicate 1400 'a'] := by
  constructor
  · intro s c hc
    exact splitTextGo_bounds _ _ (pyStrip_idem s) (Nat.lt_succ_self _) c hc
  · exact split_text_replicate_5000

/-- C8, witness: a short text is its own single chunk, nonempty and
within the bound. -/
theorem C8_split_text_bounds_witness :
    (str "hello" ∈ _split_text (str "hello")) ∧
    (str "hello" ≠ [] ∧ (str "hello").length ≤ 1800) :=
  ⟨by decide, C8_split_text_bounds.1 (str "hello") (str "hello") (by decide)⟩

/-! ## C10 — `normalize_gbf_media_url` idempotence -/

theorem isPrefixOf_append_cases (s : Str) : ∀ (pat name : Str),
    pat.isPrefixOf (s ++ name) = true →
    pat.isPrefixOf s = true ∨
      (s.isPrefixOf pat = true ∧ (pat.drop s.length).isPrefixOf name = true) := by
  induction s with
  | nil =>
    intro pat name h
    right
    exact ⟨by simp [List.isPrefixOf], h⟩
  | cons c s' ih =>
    intro pat name h
    cases pat with
    | nil => left; rfl
    | cons p ps =>
      rw [List.cons_append] at h
      simp only [List.isPrefixOf, Bool.and_eq_true, beq_iff_eq] at h
      obtain ⟨rfl, h2⟩ := h
      rcases ih ps name h2 with h3 | ⟨h3, h4⟩
      · left
        simp [List.isPrefixOf, h3]
      · right
        refine ⟨by simp [List.isPrefixOf, h3], by simpa using h4⟩

theorem prefix_slash_false : ∀ (pat l : Str), '/' ∈ pat → '/' ∉ l →
    pat.isPrefixOf l = false := by
  intro pat
  induction pat with
  | nil => intro l h; cases h
  | cons p ps ih =>
    intro l hp hl
    cases l with
    | nil => rfl
    | cons c cs =>
      show (p == c && ps.isPrefixOf cs) = false
      rcases List.mem_cons.mp hp with rfl | hp2
      · have hc : (('/' : Char) == c) = false := by
          rw [Bool.eq_false_iff]
          intro hh
          exact hl (beq_iff_eq.mp hh ▸ List.mem_cons_self c cs)
        rw [hc, Bool.false_and]
      · rw [ih cs hp2 (fun hm => hl (List.mem_cons_of_mem c hm)), Bool.and_false]

theorem reSearch_eq_none (f : Str → Option Str) (cs : Str)
    (h : ∀ n, f (cs.drop n) = none) : reSearch f cs = none := by
  induction cs with
  | nil =>
    show f [] = none
    exact h 0
  | cons c rest ih =>
    show (match f (c :: rest) with
      | some r => some r
      | none => reSearch f rest) = none
    rw [show f (c :: rest) = none from h 0]
    exact ih (fun n => h (n + 1))

theorem reSearch_some (f : Str → Option Str) (cs : Str) (r : Str)
    (h : reSearch f cs = some r) : ∃ n, f (cs.drop n) = some r := by
  induction cs with
  | nil => exact ⟨0, h⟩
  | cons c rest ih =>
    rw [show reSearch f (c :: rest) = (match f (c :: rest) with
      | some r => some r
      | none => reSearch f rest) from rfl] at h
    cases hf : f (c :: rest) with
    | some r2 =>
      rw [hf] at h
      exact ⟨0, hf.trans h⟩
    | none =>
      rw [hf] at h
      obtain ⟨n, hn⟩ := ih h
      exact ⟨n + 1, hn⟩

theorem pat1At_none_of_no_images (cs : Str)
    (h : (str "/images/").isPrefixOf cs = false) : pat1At cs = none := by
  unfold pat1At
  rw [h]
  rfl

theorem pat2At_none_of_no_images (cs : Str)
    (h : (str "/images/").isPrefixOf cs = false) : pat2At cs = none := by
  unfold pat2At
  rw [h]
  rfl

theorem no_images_in_rewritten (name : Str) (hslash : '/' ∉ name) (n : Nat) :
    (str "/images/").isPrefixOf ((filePathRoot ++ name).drop n) = false := by
  rw [Bool.eq_false_iff]
  intro h
  rw [List.drop_append_eq_append_drop] at h
  have hd : '/' ∉ name.drop (n - filePathRoot.length) :=
    fun hm => hslash (List.mem_of_mem_drop hm)
  rcases isPrefixOf_append_cases _ _ _ h with h1 | ⟨h2, h3⟩
  · by_cases hn : n < 35
    · have hb : ∀ m, m < 35 →
          ((str "/images/").isPrefixOf (filePathRoot.drop m)) = false := by decide
      rw [hb n hn] at h1
      cases h1
    · rw [List.drop_eq_nil_of_le (by
        rw [show filePathRoot.length = 34 from rfl]
        omega)] at h1
      cases h1
  · by_cases hn : n < 35
    · have hb2 : ∀ m, m < 35 →
          ((filePathRoot.drop m).isPrefixOf (str "/images/") = false ∨
            '/' ∈ (str "/images/").drop ((filePathRoot.drop m).length)) := by decide
      rcases hb2 n hn with hf | hmem
      · rw [hf] at h2
        cases h2
      · rw [prefix_slash_false _ _ hmem hd] at h3
        cases h3
    · have hroot : filePathRoot.drop n = [] := List.drop_eq_nil_of_le (by
        rw [show filePathRoot.length = 34 from rfl]
        omega)
      rw [hroot] at h3
      simp only [List.length_nil, List.drop_zero] at h3
      rw [prefix_slash_false _ _ (by decide) hd] at h3
      cases h3

theorem matchHexTail1_props (cs r : Str) (h : matchHexTail1 cs = some r) :
    r ≠ [] ∧ '/' ∉ r := by
  unfold matchHexTail1 at h
  split at h
  · split at h
    · rename_i hcond
      injection h with h
      subst h
      simp only [Bool.and_eq_true, List.all_eq_true] at hcond
      obtain ⟨⟨_, hne⟩, hall⟩ := hcond
      constructor
      · intro hnil
        rw [hnil] at hne
        simp at hne
      · intro hmem
        have h2 := hall '/' hmem
        simp at h2
    · cases h
  · cases h

theorem pat1At_props (cs r : Str) (h : pat1At cs = some r) : r ≠ [] ∧ '/' ∉ r := by
  unfold pat1At at h
  split at h
  · rcases Option.or_eq_some.mp h with h2 | ⟨_, h2⟩
    · split at h2
      · exact matchHexTail1_props _ _ h2
      · cases h2
    · exact matchHexTail1_props _ _ h2
  · cases h

theorem pat2At_props (cs r : Str) (h : pat2At cs = some r) : r ≠ [] ∧ '/' ∉ r := by
  unfold pat2At at h
  split at h
  · split at h
    · split at h
      · split at h
        · dsimp only at h
          split at h
          · rename_i hcond
            injection h with h
            subst h
            simp only [Bool.and_eq_true] at hcond
            constructor
            · intro hnil
              rw [hnil] at hcond
              simp at hcond
            · intro hmem
              have h2 := List.mem_takeWhile_imp hmem
              simp at h2
          · cases h
        · cases h
      · cases h
    · cases h
  · cases h

theorem normalize_rewritten_fixed (name : Str) (hslash : '/' ∉ name) :
    normalize_gbf_media_url (filePathRoot ++ name) = filePathRoot ++ name := by
  unfold normalize_gbf_media_url
  rw [if_neg ?hcond]
  · rw [reSearch_eq_none pat1At _
        (fun n => pat1At_none_of_no_images _ (no_images_in_rewritten name hslash n)),
      reSearch_eq_none pat2At _
        (fun n => pat2At_none_of_no_images _ (no_images_in_rewritten name hslash n))]
  case hcond =>
    intro hor
    rcases Bool.or_eq_true_iff.mp hor with he | hp
    · rw [show filePathRoot ++ name = 'h' :: (filePathRoot.tail ++ name) from rfl] at he
      simp at he
    · rw [show (gbfWikiRoot.isPrefixOf (filePathRoot ++ name)) = true from
        List.isPrefixOf_iff_prefix.mpr
          (List.IsPrefix.trans (by decide) (List.prefix_append _ _))] at hp
      simp at hp

/-- C10: `normalize_gbf_media_url` is idempotent and total on strings:
a URL without the `https://gbf.wiki/` prefix is returned unchanged, a
gbf.wiki URL matching neither `/images/` pattern is returned
unchanged, and a rewritten URL (`https://gbf.wiki/Special:FilePath/…`,
whose captured name is nonempty and slash-free) is a fixed point, so
applying the function twice equals applying it once. -/
theorem C10_normalize_url_idempotent :
    (∀ url : Str, normalize_gbf_media_url (normalize_gbf_media_url url)
      = normalize_gbf_media_url url) ∧
    (∀ url : Str, gbfWikiRoot.isPrefixOf url = false → normalize_gbf_media_url url = url) ∧
    (∀ url : Str, reSearch pat1At url = none → reSearch pat2At url = none →
      normalize_gbf_media_url url = url) := by
  have h2 : ∀ url : Str, gbfWikiRoot.isPrefixOf url = false →
      normalize_gbf_media_url url = url := by
    intro url h
    unfold normalize_gbf_media_url
    rw [if_pos (by rw [h]; simp)]
  have h3 : ∀ url : Str, reSearch pat1At url = none → reSearch pat2At url = none →
      normalize_gbf_media_url url = url := by
    intro url hs1 hs2
    unfold normalize_gbf_media_url
    by_cases hc : (url.isEmpty || !(gbfWikiRoot.isPrefixOf url)) = true
    · rw [if_pos hc]
    · rw [if_neg hc, hs1, hs2]
  refine ⟨?_, h2, h3⟩
  intro url
  by_cases hc : (url.isEmpty || !(gbfWikiRoot.isPrefixOf url)) = true
  · have he : normalize_gbf_media_url url = url := by
      unfold normalize_gbf_media_url
      rw [if_pos hc]
    rw [he, he]
  · cases hs1 : reSearch pat1At url with
    | some r =>
      have he : normalize_gbf_media_url url = filePathRoot ++ r := by
        unfold normalize_gbf_media_url
        rw [if_neg hc, hs1]
      obtain ⟨n, hn⟩ := reSearch_some _ _ _ hs1
      obtain ⟨hne, hsl⟩ := pat1At_props _ _ hn
      rw [he, normalize_rewritten_fixed r hsl]
    | none =>
      cases hs2 : reSearch pat2At url with
      | some r =>
        have he : normalize_gbf_media_url url = filePathRoot ++ r := by
          unfold normalize_gbf_media_url
          rw [if_neg hc, hs1, hs2]
        obtain ⟨n, hn⟩ := reSearch_some _ _ _ hs2
        obtain ⟨hne, hsl⟩ := pat2At_props _ _ hn
        rw [he, normalize_rewritten_fixed r hsl]
      | none =>
        have he : normalize_gbf_media_url url = url := h3 url hs1 hs2
        rw [he, he]

/-- C10, witness: idempotence at a concrete thumbnail URL, and a
non-gbf.wiki URL returned unchanged. -/
theorem C10_normalize_url_idempotent_witness :
    (normalize_gbf_media_url (normalize_gbf_media_url
        (str "https://gbf.wiki/images/thumb/1/2a/Foo.png/300px-Foo.png"))
      = normalize_gbf_media_url (str "https://gbf.wiki/images/thumb/1/2a/Foo.png/300px-Foo.png")) ∧
    (gbfWikiRoot.isPrefixOf (str "https://example.com/a.png") = false ∧
      normalize_gbf_media_url (str "https://example.com/a.png") = str "https://example.com/a.png") :=
  ⟨C10_normalize_url_idempotent.1 (str "https://gbf.wiki/images/thumb/1/2a/Foo.png/300px-Foo.png"),
    by decide, C10_normalize_url_idempotent.2.1 (str "https://example.com/a.png") (by decide)⟩
